import Mathlib

set_option maxRecDepth 4000

/-!
# Verification development for libforest's decision-tree learners

Shallow embedding of `src/classifier_learning.cpp` (axis-aligned, projective,
dot-product and online decision-tree learners) over exact rational arithmetic:
C++ `float`/`double` values are modelled as `ℚ`, machine `int` counters as
`ℕ`/`ℤ` as appropriate.  All randomness (feature shuffles, projection draws,
anchor draws, bootstrap resampling, Poisson replication counts) is modelled as
explicit oracle streams of realized draws passed to the learner, mirroring the
C++ code's draws from its random generators.  `std::log` is modelled as an
abstract parameter `lg : ℚ → ℚ` (only the structure of the computed
log-probability vectors matters here, never analytic properties of `log`), and
`EfficientEntropyHistogram::getEntropy` as an abstract parameter
`E : List ℕ → ℚ` since the histogram class lives in a header outside the
provided sources.
-/

/-- Modelled from the spec: the dataset contract (§6) — a read-only accessor
over examples: `size()`, `dimensionality()`, `classCount()`,
`dataPoint(index)`, `classLabel(index)`.  `getDimensionality`/`getClasscount`
are carried as explicit fields. -/
structure DataStorage where
  points : List (List ℚ)
  labels : List ℕ
  classcount : ℕ
  dim : ℕ
deriving DecidableEq

def DataStorage.size (s : DataStorage) : ℕ := s.points.length

def DataStorage.dataPoint (s : DataStorage) (n : ℕ) : List ℚ := s.points.getD n []

def DataStorage.classLabel (s : DataStorage) (n : ℕ) : ℕ := s.labels.getD n 0

/-- `storage->getDataPoint(n)(f)` — feature `f` of example `n`. -/
def DataStorage.feat (s : DataStorage) (n f : ℕ) : ℚ := (s.dataPoint n).getD f 0

/-- Modelled from the spec: `bootstrap(sampleCount)` (§6) — sampling with
replacement.  The realized draws come from the oracle stream `draw`; reducing
mod `size` expresses that the sampler only ever returns indices of the
dataset. -/
def DataStorage.bootstrap (s : DataStorage) (count : ℕ) (draw : ℕ → ℕ) : DataStorage :=
  { points := (List.range count).map (fun i => s.dataPoint (draw i % s.size)),
    labels := (List.range count).map (fun i => s.classLabel (draw i % s.size)),
    classcount := s.classcount,
    dim := s.dim }

/-- Modelled from the spec: `EfficientEntropyHistogram` (§3, §4.1) — ordered
sequence of class counts; `addOne` increments one bucket. -/
def histAddOne (h : List ℕ) (c : ℕ) : List ℕ := h.set c (h.getD c 0 + 1)

/-- Modelled from the spec: `subOne`, inverse of `addOne`. -/
def histSubOne (h : List ℕ) (c : ℕ) : List ℕ := h.set c (h.getD c 0 - 1)

/-- Modelled from the spec: `getMass()` — sum of the counts. -/
def histMass (h : List ℕ) : ℕ := h.sum

/-- Modelled from the spec: `at(c)` — count of class `c`. -/
def histAt (h : List ℕ) (c : ℕ) : ℕ := h.getD c 0

/-- Modelled from the spec: `isPure()` — true iff at most one nonzero bucket. -/
def histIsPure (h : List ℕ) : Bool := (h.filter (fun k => k != 0)).length ≤ 1

/-- The per-node class histogram accumulated by one scan over a node's
example-index partition (`hist.addOne(storage->getClassLabel(...))`). -/
def histOfExamples (s : DataStorage) (part : List ℕ) : List ℕ :=
  part.foldl (fun h n => histAddOne h (s.classLabel n)) (List.replicate s.classcount 0)

/-- `std::vector<float>::resize(C)` — keep the first `C` entries, pad with 0. -/
def vecResize (v : List ℚ) (C : ℕ) : List ℚ := v.take C ++ List.replicate (C - v.length) 0

/-- `updateLeafNodeHistogram` from `classifier_learning.cpp`: resize the leaf
vector to the class count and, unless the tree was grown on a bootstrap
resample, overwrite every entry with the smoothed log-probability
`log((hist.at(c) + smoothing) / (hist.getMass() + hist.getSize()*smoothing))`.
`lg` abstracts `std::log`. -/
def updateLeafNodeHistogram (lg : ℚ → ℚ) (leafNodeHistogram : List ℚ) (hist : List ℕ)
    (smoothing : ℚ) (useBootstrap : Bool) : List ℚ :=
  let C := hist.length
  if !useBootstrap then
    (List.range C).map (fun c =>
      lg (((histAt hist c : ℚ) + smoothing) / ((histMass hist : ℚ) + (C : ℚ) * smoothing)))
  else
    vecResize leafNodeHistogram C

/-- The smoothed leaf log-probability vector
`log((count_c + α)/(mass + numClasses·α))` — exactly the non-bootstrap branch
of `updateLeafNodeHistogram`, stated standalone so that theorems can assert
that a histogram was written *smoothed*. -/
def smoothedLogHistogram (lg : ℚ → ℚ) (hist : List ℕ) (α : ℚ) : List ℚ :=
  (List.range hist.length).map (fun c =>
    lg (((histAt hist c : ℚ) + α) / ((histMass hist : ℚ) + (hist.length : ℚ) * α)))

/-- The split decision of the axis-aligned partition pass:
`featureValue < threshold` goes left, everything else (equality included)
goes right. -/
def axisGoesLeft (featureValue threshold : ℚ) : Bool := featureValue < threshold

/-- The split decision of the projective partition pass: `inner < 0` left. -/
def projGoesLeft (inner : ℚ) : Bool := inner < 0

/-- The split decision of the dot-product partition pass:
`inner < threshold` left. -/
def dotGoesLeft (inner threshold : ℚ) : Bool := inner < threshold

/-- `Eigen` dot product of two (feature) vectors. -/
def dotProd (a b : List ℚ) : ℚ := (List.zipWith (· * ·) a b).sum

/-- The sweep's skip test in `DecisionTreeLearner::learn`: the adjacent pair
`(leftValue, rightValue)` is skipped when
`|rightValue - leftValue| < 1e-6 * max |rightValue + 1e-6| |leftValue + 1e-6|`. -/
def sweepSkip (leftValue rightValue : ℚ) : Bool :=
  |rightValue - leftValue| <
    (1 / 1000000) * max |rightValue + 1 / 1000000| |leftValue + 1 / 1000000|

/-- The running optimum of the axis-aligned threshold search
(`bestThreshold`, `bestFeature`, `bestObjective`, `bestLeftMass`,
`bestRightMass`).  As in the source, `bestThreshold` holds the *sum* of the
two adjacent values until the final `*= 0.5`. -/
structure SweepBest where
  bestThreshold : ℚ
  bestFeature : ℤ
  bestObjective : ℚ
  bestLeftMass : ℕ
  bestRightMass : ℕ
deriving DecidableEq

/-- Initial optimum: no feature found yet, objective `1e35`, right mass `N`. -/
def initialBest (N : ℕ) : SweepBest := ⟨0, -1, 10 ^ 35, 0, N⟩

/-- The inner sweep of `DecisionTreeLearner::learn` over one sorted feature
column (`for m = 1 .. N-1`): move the previous example into the left
histogram, skip numerically-close adjacent pairs, otherwise evaluate
`entropy(left) + entropy(right)` and update the strict minimizer. -/
def sweepGo (E : List ℕ → ℚ) (s : DataStorage) (feature : ℕ) :
    List ℕ → List ℕ → List ℕ → ℚ → ℕ → SweepBest → SweepBest
  | [], _, _, _, _, best => best
  | n :: ms, leftHist, rightHist, leftValue, leftClass, best =>
    let leftHist' := histAddOne leftHist leftClass
    let rightHist' := histSubOne rightHist leftClass
    let rightValue := s.feat n feature
    if sweepSkip leftValue rightValue then
      sweepGo E s feature ms leftHist' rightHist' rightValue (s.classLabel n) best
    else
      let localObjective := E leftHist' + E rightHist'
      let best' :=
        if localObjective < best.bestObjective then
          (⟨leftValue + rightValue, (feature : ℤ), localObjective,
            histMass leftHist', histMass rightHist'⟩ : SweepBest)
        else best
      sweepGo E s feature ms leftHist' rightHist' rightValue (s.classLabel n) best'

/-- One candidate feature of the axis-aligned search: sort the node's example
list by that feature (`std::sort` with `FeatureComparator`), then sweep.
Returns the updated optimum together with the sorted list, which the source
keeps (and later partitions) in place. -/
def axisSweepFeature (E : List ℕ → ℚ) (s : DataStorage) (feature : ℕ) (hist : List ℕ)
    (cur : List ℕ) (best : SweepBest) : SweepBest × List ℕ :=
  let sorted := List.insertionSort (fun a b => s.feat a feature ≤ s.feat b feature) cur
  match sorted with
  | [] => (best, sorted)
  | n0 :: ms =>
    (sweepGo E s feature ms (List.replicate s.classcount 0) hist
      (s.feat n0 feature) (s.classLabel n0) best, sorted)

/-- The feature loop (`for f = 0 .. _numFeatures-1`) of the axis-aligned
search, threading the in-place-sorted example list through. -/
def axisFeatureLoop (E : List ℕ → ℚ) (s : DataStorage) (hist : List ℕ) :
    List ℕ → List ℕ → SweepBest → SweepBest × List ℕ
  | [], cur, best => (best, cur)
  | f :: fs, cur, best =>
    let r := axisSweepFeature E s f hist cur best
    axisFeatureLoop E s hist fs r.2 r.1

/-- The axis-aligned commit's partition pass: route every example by
`axisGoesLeft`; the source fills the freshly allocated child arrays from the
back (`leftList[--bestLeftMass] = n`), hence the reversal. -/
def axisPartitionPass (s : DataStorage) (feature : ℕ) (threshold : ℚ) (l : List ℕ) :
    List ℕ × List ℕ :=
  ((l.filter (fun n => axisGoesLeft (s.feat n feature) threshold)).reverse,
   (l.filter (fun n => !axisGoesLeft (s.feat n feature) threshold)).reverse)

/-- Outcome of processing one pending node of the axis-aligned learner.  A
committed split carries the two child partitions together with the final
values of the countdown counters `bestLeftMass`/`bestRightMass` after the
partition pass — the source `BOOST_ASSERT`s that both are `0`. -/
inductive AxisNodeResult where
  | leaf : AxisNodeResult
  | split (feature : ℕ) (threshold : ℚ) (leftList rightList : List ℕ)
      (leftCounter rightCounter : ℤ) : AxisNodeResult
deriving DecidableEq

/-- The split-search-and-commit step of `DecisionTreeLearner::learn` for one
node (everything between the stop check and `splitNode`): optimize over the
sampled features, halve the stored threshold, fall back to a leaf when no
feature was kept or a child mass is below `minChildSplitExamples`, otherwise
partition the (last-sorted) example list. -/
def axisChooseNode (E : List ℕ → ℚ) (s : DataStorage) (minChildSplitExamples : ℕ)
    (numFeatures : ℕ) (perm : List ℕ) (hist part : List ℕ) : AxisNodeResult :=
  let r := axisFeatureLoop E s hist (perm.take numFeatures) part (initialBest part.length)
  let best := r.1
  let bestThreshold := best.bestThreshold * (1 / 2)
  if best.bestFeature < 0 ∨ best.bestLeftMass < minChildSplitExamples ∨
      best.bestRightMass < minChildSplitExamples then
    .leaf
  else
    let f := best.bestFeature.toNat
    let p := axisPartitionPass s f bestThreshold r.2
    .split f bestThreshold p.1 p.2
      ((best.bestLeftMass : ℤ) - (p.1.length : ℤ))
      ((best.bestRightMass : ℤ) - (p.2.length : ℤ))

/-- Split descriptor stored in a tree node: axis-aligned (feature index +
threshold), sparse projection, or dot-product (two anchors + threshold). -/
inductive SplitDesc where
  | axisSplit (feature : ℕ) (threshold : ℚ)
  | projSplit (projection : List ℚ)
  | dotSplit (x1 x2 : List ℚ) (threshold : ℚ)
deriving DecidableEq

/-- Modelled from the spec: a tree node (§3, §4.2) — depth, optional split
descriptor (`none` = leaf/unresolved), index of the left child (children are
allocated as a contiguous pair, right = left + 1), and the leaf's smoothed
log-probability vector. -/
structure BNode where
  depth : ℕ
  desc : Option SplitDesc
  leftChild : ℕ
  histogram : List ℚ
deriving DecidableEq

def defaultBNode : BNode := ⟨0, none, 0, []⟩

/-- One entry of the batch learners' split worklist: a pending node index,
its depth, and its exclusively owned example-index partition. -/
structure SplitTask where
  nodeId : ℕ
  depth : ℕ
  part : List ℕ

/-- The configuration knobs shared by the three batch learners' stop and
commit logic. -/
structure StopConfig where
  minSplitExamples : ℕ
  minChildSplitExamples : ℕ
  maxDepth : ℕ
  smoothingParameter : ℚ
  useBootstrap : Bool

/-- Rewrite node `i` of the node table in place (no-op when out of range). -/
def treeModify (tree : List BNode) (i : ℕ) (f : BNode → BNode) : List BNode :=
  tree.set i (f (tree.getD i defaultBNode))

/-- Resolve node `i` as a leaf: write its (possibly smoothed) histogram via
`updateLeafNodeHistogram`, passing the learner's bootstrap flag. -/
def finalizeLeaf (lg : ℚ → ℚ) (cfg : StopConfig) (tree : List BNode) (i : ℕ)
    (hist : List ℕ) : List BNode :=
  treeModify tree i (fun nd =>
    { nd with histogram :=
        updateLeafNodeHistogram lg nd.histogram hist cfg.smoothingParameter cfg.useBootstrap })

/-- Commit a split: store the descriptor on node `i` and `splitNode` — append
the two children (depth = parent depth + 1) as a contiguous pair. -/
def commitSplit (tree : List BNode) (i : ℕ) (desc : SplitDesc) (childDepth : ℕ) : List BNode :=
  treeModify tree i (fun nd => { nd with desc := some desc, leftChild := tree.length })
    ++ [{ defaultBNode with depth := childDepth }, { defaultBNode with depth := childDepth }]

/-- The worklist state machine shared by the three batch learners
(`while (splitStack.size() > 0)`): pop a pending node, build its histogram,
stop (mass below `minSplitExamples`, pure, or depth at `maxDepth`) into a
leaf, otherwise ask the learner-specific split search (`chooser`, indexed by
the visit counter to address its oracle draws) and either fall back to a leaf
or commit the split and push both children. -/
def batchLoop (E : List ℕ → ℚ) (lg : ℚ → ℚ) (cfg : StopConfig) (s : DataStorage)
    (chooser : ℕ → List ℕ → List ℕ → Option (SplitDesc × List ℕ × List ℕ)) :
    List SplitTask → List BNode → ℕ → List BNode
  | [], tree, _ => tree
  | t :: rest, tree, visit =>
    let hist := histOfExamples s t.part
    if h : histMass hist < cfg.minSplitExamples ∨ histIsPure hist = true ∨
        cfg.maxDepth ≤ t.depth then
      batchLoop E lg cfg s chooser rest (finalizeLeaf lg cfg tree t.nodeId hist) (visit + 1)
    else
      match chooser visit hist t.part with
      | none =>
        batchLoop E lg cfg s chooser rest (finalizeLeaf lg cfg tree t.nodeId hist) (visit + 1)
      | some (desc, leftPart, rightPart) =>
        let leftChild := tree.length
        batchLoop E lg cfg s chooser
          (⟨leftChild + 1, t.depth + 1, rightPart⟩ :: ⟨leftChild, t.depth + 1, leftPart⟩ :: rest)
          (commitSplit tree t.nodeId desc (t.depth + 1)) (visit + 1)
termination_by tasks _ _ => ((tasks.map fun u => 3 ^ (cfg.maxDepth - u.depth)).sum)
decreasing_by
  · simp only [List.map_cons, List.sum_cons]
    have h3 : 0 < 3 ^ (cfg.maxDepth - t.depth) := Nat.pow_pos (by norm_num)
    omega
  · simp only [List.map_cons, List.sum_cons]
    have h3 : 0 < 3 ^ (cfg.maxDepth - t.depth) := Nat.pow_pos (by norm_num)
    omega
  · simp only [List.map_cons, List.sum_cons]
    push_neg at h
    have h1 : cfg.maxDepth - t.depth = (cfg.maxDepth - (t.depth + 1)) + 1 := by omega
    have h3 : 0 < 3 ^ (cfg.maxDepth - (t.depth + 1)) := Nat.pow_pos (by norm_num)
    rw [h1, pow_succ]
    omega

/-- `routeGoesLeft desc x`: which side does example `x` take at an internal
node (used by the tree traversal of the histogram refresh pass). -/
def routeGoesLeft (desc : SplitDesc) (x : List ℚ) : Bool :=
  match desc with
  | .axisSplit f θ => axisGoesLeft (x.getD f 0) θ
  | .projSplit p => projGoesLeft (dotProd p x)
  | .dotSplit x1 x2 θ => dotGoesLeft (dotProd x x2 - dotProd x x1) θ

/-- Modelled from the spec: `findLeafNode` traversal (§6) for batch trees,
with fuel (the node table is finite and children follow their parent). -/
def batchFindLeafGo (tree : List BNode) (x : List ℚ) : ℕ → ℕ → ℕ
  | 0, i => i
  | fuel + 1, i =>
    match (tree.getD i defaultBNode).desc with
    | none => i
    | some desc =>
      batchFindLeafGo tree x fuel
        ((tree.getD i defaultBNode).leftChild + (if routeGoesLeft desc x then 0 else 1))

def batchFindLeaf (tree : List BNode) (x : List ℚ) : ℕ := batchFindLeafGo tree x tree.length 0

/-- Modelled from the spec: `TreeLearningTools::updateHistograms` (§4.3
post-pass) — recompute every leaf histogram over the full, unsampled dataset
by routing every original example down the finished tree, re-accumulating
per-leaf counts, then smoothing. -/
def TreeLearningTools.updateHistograms (lg : ℚ → ℚ) (tree : List BNode) (s : DataStorage)
    (smoothing : ℚ) : List BNode :=
  (List.range tree.length).map (fun i =>
    let nd := tree.getD i defaultBNode
    match nd.desc with
    | some _ => nd
    | none =>
      let part := (List.range s.size).filter (fun n => batchFindLeaf tree (s.dataPoint n) == i)
      { nd with histogram :=
          updateLeafNodeHistogram lg nd.histogram (histOfExamples s part) smoothing false })

/-- `DecisionTreeLearner::learn`: assert the feature-sample count against the
dataset dimensionality (`BOOST_ASSERT_MSG`, modelled as a fatal `.error`),
resolve the `-1` config sentinels, optionally bootstrap-resample, grow the
tree from a root holding every example, and on bootstrap refresh all leaf
histograms over the full dataset.  `perms` is the oracle stream of realized
feature shuffles (one per node visit, mirroring
`std::shuffle(..., std::default_random_engine(rd()))`), `bootDraw` the
realized bootstrap draws. -/
def DecisionTreeLearner.learn (E : List ℕ → ℚ) (lg : ℚ → ℚ)
    (numFeatures numBootstrapExamples : ℤ) (cfg : StopConfig) (dataStorage : DataStorage)
    (perms : ℕ → List ℕ) (bootDraw : ℕ → ℕ) : Except String (List BNode) :=
  if ¬ (numFeatures ≤ (dataStorage.dim : ℤ)) then
    .error ("The number of feature evaluations must not exceed the feature dimension.")
  else
    let nBoot := if numBootstrapExamples < 0 then dataStorage.size else numBootstrapExamples.toNat
    let nFeat := if numFeatures < 0 then Nat.sqrt dataStorage.dim else numFeatures.toNat
    let storage := if cfg.useBootstrap then dataStorage.bootstrap nBoot bootDraw else dataStorage
    let result := batchLoop E lg cfg storage
      (fun visit hist part =>
        match axisChooseNode E storage cfg.minChildSplitExamples nFeat (perms visit) hist part with
        | .leaf => none
        | .split f θ lp rp _ _ => some (.axisSplit f θ, lp, rp))
      [⟨0, 0, List.range storage.size⟩] [defaultBNode] 0
    .ok (if cfg.useBootstrap then
        TreeLearningTools.updateHistograms lg result dataStorage cfg.smoothingParameter
      else result)

/-- One projective candidate: accumulate the left/right histograms of the
sparse-projection split `projection · x < 0` over the node's examples
(left starts empty, right starts at the node histogram, matching
`leftHistogram.reset(); rightHistogram = hist`). -/
def projEvalCandidate (s : DataStorage) (hist : List ℕ) (projection : List ℚ)
    (part : List ℕ) : List ℕ × List ℕ :=
  part.foldl (fun p n =>
    if projGoesLeft (dotProd projection (s.dataPoint n)) then
      (histAddOne p.1 (s.classLabel n), histSubOne p.2 (s.classLabel n))
    else p) (List.replicate s.classcount 0, hist)

/-- The running optimum of `ProjectiveDecisionTreeLearner::learn`. -/
structure ProjBest where
  bestObjective : ℚ
  bestLeftMass : ℕ
  bestRightMass : ℕ
  bestProjection : List ℚ
deriving DecidableEq

/-- The candidate loop of `ProjectiveDecisionTreeLearner::learn`
(`for f = 0 .. numFeatures-1`): draw a sparse random projection (the realized
draw comes from the oracle `projDraw`; the source's `±1/√3` entries are the
realized values), evaluate `entropy(left) + entropy(right)`, keep the strict
minimizer. -/
def projFindBest (E : List ℕ → ℚ) (s : DataStorage) (hist part : List ℕ)
    (numFeatures : ℕ) (projDraw : ℕ → List ℚ) (D : ℕ) : ProjBest :=
  (List.range numFeatures).foldl (fun best f =>
    let projection := projDraw f
    let p := projEvalCandidate s hist projection part
    let localObjective := E p.1 + E p.2
    if localObjective < best.bestObjective then
      (⟨localObjective, histMass p.1, histMass p.2, projection⟩ : ProjBest)
    else best) ⟨10 ^ 35, 0, part.length, List.replicate D 0⟩

/-- The projective commit's partition pass (`inner < 0` goes left); children
arrays are filled from the back, hence the reversal. -/
def projPartitionPass (s : DataStorage) (projection : List ℚ) (l : List ℕ) :
    List ℕ × List ℕ :=
  ((l.filter (fun n => projGoesLeft (dotProd projection (s.dataPoint n)))).reverse,
   (l.filter (fun n => !projGoesLeft (dotProd projection (s.dataPoint n)))).reverse)

/-- `ProjectiveDecisionTreeLearner::learn`: no entry assertion; optional
bootstrap resample; grow with the projective candidate search; on bootstrap
refresh the leaf histograms over the full dataset. -/
def ProjectiveDecisionTreeLearner.learn (E : List ℕ → ℚ) (lg : ℚ → ℚ)
    (numFeatures numBootstrapExamples : ℕ) (cfg : StopConfig) (dataStorage : DataStorage)
    (projDraw : ℕ → ℕ → List ℚ) (bootDraw : ℕ → ℕ) : Except String (List BNode) :=
  let storage := if cfg.useBootstrap then dataStorage.bootstrap numBootstrapExamples bootDraw
    else dataStorage
  let result := batchLoop E lg cfg storage
    (fun visit hist part =>
      let best := projFindBest E storage hist part numFeatures (projDraw visit) storage.dim
      if (10 : ℚ) ^ 20 < best.bestObjective ∨ best.bestLeftMass < cfg.minChildSplitExamples ∨
          best.bestRightMass < cfg.minChildSplitExamples then none
      else
        let p := projPartitionPass storage best.bestProjection part
        some (.projSplit best.bestProjection, p.1, p.2))
    [⟨0, 0, List.range storage.size⟩] [defaultBNode] 0
  .ok (if cfg.useBootstrap then
      TreeLearningTools.updateHistograms lg result dataStorage cfg.smoothingParameter
    else result)

/-- `sortedPointIndices[c]` — the node's example indices carrying label `c`. -/
def sortedPointIndicesOf (s : DataStorage) (part : List ℕ) (c : ℕ) : List ℕ :=
  part.filter (fun n => s.classLabel n == c)

/-- `classLabels` — the classes with a nonzero count in the node histogram. -/
def classLabelsOf (hist : List ℕ) : List ℕ :=
  (List.range hist.length).filter (fun c => histAt hist c != 0)

/-- Modelled from the spec: `Util::sampleTwo` (§4.5 — "samples two *distinct*
class labels") — two distinct indices below `len`, realized from the raw
oracle draws `r1`, `r2`. -/
def sampleTwoDistinct (len : ℕ) (r1 r2 : ℕ) : ℕ × ℕ :=
  if len ≤ 1 then (0, 0)
  else
    let i1 := r1 % len
    (i1, (i1 + 1 + r2 % (len - 1)) % len)

/-- One dot-product candidate: accumulate the left/right histograms of the
split `⟨x,x2⟩ − ⟨x,x1⟩ < threshold` over the node's examples. -/
def dotEvalCandidate (s : DataStorage) (hist : List ℕ) (x1 x2 : List ℚ) (threshold : ℚ)
    (part : List ℕ) : List ℕ × List ℕ :=
  part.foldl (fun p n =>
    if dotGoesLeft (dotProd (s.dataPoint n) x2 - dotProd (s.dataPoint n) x1) threshold then
      (histAddOne p.1 (s.classLabel n), histSubOne p.2 (s.classLabel n))
    else p) (List.replicate s.classcount 0, hist)

/-- The running optimum of `DotProductDecisionTreeLearner::learn`. -/
structure DotBest where
  bestThreshold : ℚ
  bestObjective : ℚ
  bestLeftMass : ℕ
  bestRightMass : ℕ
  bestProjection1 : List ℚ
  bestProjection2 : List ℚ
deriving DecidableEq

/-- The candidate loop of `DotProductDecisionTreeLearner::learn`: sample two
distinct non-empty class labels, one anchor example from each
(`Util::getRandomEntry`, realized from raw oracle draws reduced mod the list
length), set the perpendicular-bisector threshold
`0.5 (‖x2‖² − ‖x1‖²)`, and keep the strict minimizer of
`entropy(left) + entropy(right)`. -/
def dotFindBest (E : List ℕ → ℚ) (s : DataStorage) (hist part : List ℕ)
    (numFeatures : ℕ) (draw : ℕ → ℕ × ℕ × ℕ × ℕ) (D : ℕ) : DotBest :=
  let classLabels := classLabelsOf hist
  (List.range numFeatures).foldl (fun best f =>
    let r := draw f
    let two := sampleTwoDistinct classLabels.length r.1 r.2.1
    let c1 := classLabels.getD two.1 0
    let c2 := classLabels.getD two.2 0
    let l1 := sortedPointIndicesOf s part c1
    let l2 := sortedPointIndicesOf s part c2
    let x1 := s.dataPoint (l1.getD (r.2.2.1 % l1.length) 0)
    let x2 := s.dataPoint (l2.getD (r.2.2.2 % l2.length) 0)
    let threshold := (1 / 2) * (dotProd x2 x2 - dotProd x1 x1)
    let p := dotEvalCandidate s hist x1 x2 threshold part
    let localObjective := E p.1 + E p.2
    if localObjective < best.bestObjective then
      (⟨threshold, localObjective, histMass p.1, histMass p.2, x1, x2⟩ : DotBest)
    else best) ⟨0, 10 ^ 35, 0, part.length, List.replicate D 0, List.replicate D 0⟩

/-- The dot-product commit's partition pass (`inner < bestThreshold` goes
left); children arrays are filled from the back, hence the reversal. -/
def dotPartitionPass (s : DataStorage) (x1 x2 : List ℚ) (threshold : ℚ) (l : List ℕ) :
    List ℕ × List ℕ :=
  ((l.filter (fun n =>
      dotGoesLeft (dotProd (s.dataPoint n) x2 - dotProd (s.dataPoint n) x1) threshold)).reverse,
   (l.filter (fun n =>
      !dotGoesLeft (dotProd (s.dataPoint n) x2 - dotProd (s.dataPoint n) x1) threshold)).reverse)

/-- `DotProductDecisionTreeLearner::learn`: no entry assertion; optional
bootstrap resample; grow with the dot-product candidate search; on bootstrap
refresh the leaf histograms over the full dataset. -/
def DotProductDecisionTreeLearner.learn (E : List ℕ → ℚ) (lg : ℚ → ℚ)
    (numFeatures numBootstrapExamples : ℕ) (cfg : StopConfig) (dataStorage : DataStorage)
    (anchorDraw : ℕ → ℕ → ℕ × ℕ × ℕ × ℕ) (bootDraw : ℕ → ℕ) : Except String (List BNode) :=
  let storage := if cfg.useBootstrap then dataStorage.bootstrap numBootstrapExamples bootDraw
    else dataStorage
  let result := batchLoop E lg cfg storage
    (fun visit hist part =>
      let best := dotFindBest E storage hist part numFeatures (anchorDraw visit) storage.dim
      if (10 : ℚ) ^ 20 < best.bestObjective ∨ best.bestLeftMass < cfg.minChildSplitExamples ∨
          best.bestRightMass < cfg.minChildSplitExamples then none
      else
        let p := dotPartitionPass storage best.bestProjection1 best.bestProjection2
          best.bestThreshold part
        some (.dotSplit best.bestProjection1 best.bestProjection2 best.bestThreshold, p.1, p.2))
    [⟨0, 0, List.range storage.size⟩] [defaultBNode] 0
  .ok (if cfg.useBootstrap then
      TreeLearningTools.updateHistograms lg result dataStorage cfg.smoothingParameter
    else result)

/-- The split decision used by the online learner, both in
`updateSplitStatistics` and in `findLeafNode` routing:
`x(feature) < threshold` goes left, equality goes right. -/
def onlineGoesLeft (featureValue threshold : ℚ) : Bool := featureValue < threshold

/-- Modelled from the spec: an online tree node (§3, §4.2, §4.6) — depth,
optional split descriptor (feature, threshold, left-child index; right child
is left + 1), leaf log-probability vector, and the online-only per-leaf
candidate-split state (`nodeStatistics`, `nodeFeatures`, `nodeThresholds`,
`leftChildStatistics`, `rightChildStatistics`). -/
structure ONode where
  depth : ℕ
  split : Option (ℕ × ℚ × ℕ)
  histogram : List ℚ
  nodeStatistics : List ℕ
  nodeFeatures : List ℕ
  nodeThresholds : List (List ℚ)
  leftChildStatistics : List (List ℕ)
  rightChildStatistics : List (List ℕ)
deriving DecidableEq

def defaultONode : ONode := ⟨0, none, [], [], [], [], [], []⟩

/-- Configuration surface of `OnlineDecisionTreeLearner`. -/
structure OnlineConfig where
  numFeatures : ℕ
  numThresholds : ℕ
  minSplitExamples : ℕ
  minChildSplitExamples : ℕ
  maxDepth : ℕ
  minSplitObjective : ℚ
  smoothingParameter : ℚ
  useBootstrap : Bool

/-- `t + numThresholds * f` — the flat index of candidate slot `(f, t)`. -/
def slotIndex (numThresholds f t : ℕ) : ℕ := t + numThresholds * f

/-- `OnlineDecisionTreeLearner::updateSplitStatistics`: for every candidate
feature and every threshold sampled for it, add the example's label to the
left slot histogram when `x(features[f]) < thresholds[f][t]` and to the right
slot histogram otherwise. -/
def OnlineDecisionTreeLearner.updateSplitStatistics (numFeatures numThresholds : ℕ)
    (leftChildStatistics rightChildStatistics : List (List ℕ))
    (features : List ℕ) (thresholds : List (List ℚ)) (x : List ℚ) (label : ℕ) :
    List (List ℕ) × List (List ℕ) :=
  (List.range numFeatures).foldl (fun p f =>
    (List.range (thresholds.getD f []).length).foldl (fun q t =>
      if onlineGoesLeft (x.getD (features.getD f 0) 0) ((thresholds.getD f []).getD t 0) then
        (q.1.set (slotIndex numThresholds f t)
          (histAddOne (q.1.getD (slotIndex numThresholds f t) []) label), q.2)
      else
        (q.1, q.2.set (slotIndex numThresholds f t)
          (histAddOne (q.2.getD (slotIndex numThresholds f t) []) label))) p)
    (leftChildStatistics, rightChildStatistics)

/-- The lazy initialization of a fresh leaf
(`if (nodeStatistics.getSize() <= 0)`): zeroed node statistics and slot
histograms, candidate features taken from the realized shuffle `freshFeats`,
candidate thresholds from the realized generator draws `freshThrs` (the
bounded near-duplicate re-sampling of the source is absorbed into the
realized values). -/
def initLeafState (numFeatures numThresholds C : ℕ) (freshFeats : List ℕ)
    (freshThrs : List (List ℚ)) (nd : ONode) : ONode :=
  { nd with
    nodeStatistics := List.replicate C 0,
    leftChildStatistics := List.replicate (numFeatures * numThresholds) (List.replicate C 0),
    rightChildStatistics := List.replicate (numFeatures * numThresholds) (List.replicate C 0),
    nodeFeatures := (List.range numFeatures).map (fun f => freshFeats.getD f 0),
    nodeThresholds := (List.range numFeatures).map (fun f =>
      (List.range numThresholds).map (fun t => (freshThrs.getD f []).getD t 0)) }

/-- Eligibility of candidate slot `(f, t)`: both child masses strictly
exceed `minChildSplitExamples` (`leftMass > ... && rightMass > ...`). -/
def slotEligible (lcs rcs : List (List ℕ)) (numThresholds minChildSplitExamples f t : ℕ) :
    Prop :=
  minChildSplitExamples < histMass (lcs.getD (slotIndex numThresholds f t) []) ∧
    minChildSplitExamples < histMass (rcs.getD (slotIndex numThresholds f t) [])

instance (lcs rcs : List (List ℕ)) (numThresholds minChildSplitExamples f t : ℕ) :
    Decidable (slotEligible lcs rcs numThresholds minChildSplitExamples f t) :=
  inferInstanceAs (Decidable (_ ∧ _))

/-- The gain of candidate slot `(f, t)`:
`parentEntropy − leftEntropy − rightEntropy`. -/
def slotGain (E : List ℕ → ℚ) (nodeStatistics : List ℕ) (lcs rcs : List (List ℕ))
    (numThresholds f t : ℕ) : ℚ :=
  E nodeStatistics - E (lcs.getD (slotIndex numThresholds f t) []) -
    E (rcs.getD (slotIndex numThresholds f t) [])

/-- One candidate slot of the online split search: consider the slot only
when eligible; a strict improvement of the gain replaces the best
(objective, threshold index, feature index) triple. -/
def onlineScanStep (E : List ℕ → ℚ) (nodeStatistics : List ℕ) (lcs rcs : List (List ℕ))
    (numThresholds minChildSplitExamples : ℕ) (best : ℚ × ℤ × ℤ) (ft : ℕ × ℕ) : ℚ × ℤ × ℤ :=
  if slotEligible lcs rcs numThresholds minChildSplitExamples ft.1 ft.2 then
    let localObjective := slotGain E nodeStatistics lcs rcs numThresholds ft.1 ft.2
    if best.1 < localObjective then (localObjective, (ft.2 : ℤ), (ft.1 : ℤ)) else best
  else best

/-- The scan order of the online split search: all `(f, t)` slots, feature
loop outside, threshold loop inside. -/
def scanPairs (numFeatures numThresholds : ℕ) : List (ℕ × ℕ) :=
  (List.range numFeatures).flatMap (fun f => (List.range numThresholds).map (fun t => (f, t)))

/-- The full candidate scan of `OnlineDecisionTreeLearner::learn` (lines
957-978): fold `onlineScanStep` over every slot starting from
`(bestObjective, bestThreshold, bestFeature) = (0, -1, -1)`. -/
def onlineScan (E : List ℕ → ℚ) (nodeStatistics : List ℕ) (lcs rcs : List (List ℕ))
    (numFeatures numThresholds minChildSplitExamples : ℕ) : ℚ × ℤ × ℤ :=
  (scanPairs numFeatures numThresholds).foldl
    (onlineScanStep E nodeStatistics lcs rcs numThresholds minChildSplitExamples) (0, -1, -1)

/-- The statistics-update prelude of one online example visit (lines
853-938): lazily initialize a fresh leaf's candidate state, then apply the
node-statistics update and `updateSplitStatistics` `K` times each; returns
the updated node state (depth untouched). -/
def onlineVisitPrep (cfg : OnlineConfig) (C : ℕ) (tree : List ONode) (leaf : ℕ)
    (x : List ℚ) (label : ℕ) (K : ℕ) (freshFeats : List ℕ)
    (freshThrs : List (List ℚ)) : ONode :=
  let nd0 := tree.getD leaf defaultONode
  let nd1 := if nd0.nodeStatistics.length = 0 then
      initLeafState cfg.numFeatures cfg.numThresholds C freshFeats freshThrs nd0
    else nd0
  let ns := Nat.iterate (fun h => histAddOne h label) K nd1.nodeStatistics
  let stats := Nat.iterate (fun p =>
      OnlineDecisionTreeLearner.updateSplitStatistics cfg.numFeatures cfg.numThresholds
        p.1 p.2 nd1.nodeFeatures nd1.nodeThresholds x label) K
      (nd1.leftChildStatistics, nd1.rightChildStatistics)
  { nd1 with
    nodeStatistics := ns
    leftChildStatistics := stats.1
    rightChildStatistics := stats.2 }

/-- The stop re-check of the online learner (mass, purity, depth — as in the
batch case), evaluated on the post-update node state. -/
def onlineStopCheck (cfg : OnlineConfig) (nd2 : ONode) : Prop :=
  histMass nd2.nodeStatistics < cfg.minSplitExamples ∨
    histIsPure nd2.nodeStatistics = true ∨ cfg.maxDepth ≤ nd2.depth

instance (cfg : OnlineConfig) (nd2 : ONode) : Decidable (onlineStopCheck cfg nd2) :=
  inferInstanceAs (Decidable (_ ∨ _ ∨ _))

/-- One example visit of `OnlineDecisionTreeLearner::learn` after the leaf
has been located: apply the statistics prelude `onlineVisitPrep`, then
either re-check the stop criteria into a leaf-histogram refresh, or scan all
candidate slots and commit the split when the best gain reaches
`minSplitObjective` (children seeded from the winning slot's histograms, the
former leaf's histogram and candidate state cleared).  Every
`updateLeafNodeHistogram` call passes `useBootstrap = false`, as in the
source. -/
def onlineVisitLeaf (E : List ℕ → ℚ) (lg : ℚ → ℚ) (cfg : OnlineConfig) (C : ℕ)
    (tree : List ONode) (leaf : ℕ) (x : List ℚ) (label : ℕ) (K : ℕ)
    (freshFeats : List ℕ) (freshThrs : List (List ℚ)) : List ONode :=
  let nd2 := onlineVisitPrep cfg C tree leaf x label K freshFeats freshThrs
  let ns := nd2.nodeStatistics
  let depth := nd2.depth
  if onlineStopCheck cfg nd2 then
    tree.set leaf { nd2 with histogram :=
      updateLeafNodeHistogram lg nd2.histogram ns cfg.smoothingParameter false }
  else
    let best := onlineScan E ns nd2.leftChildStatistics nd2.rightChildStatistics
      cfg.numFeatures cfg.numThresholds cfg.minChildSplitExamples
    if best.1 < cfg.minSplitObjective then
      tree.set leaf { nd2 with histogram :=
        updateLeafNodeHistogram lg nd2.histogram ns cfg.smoothingParameter false }
    else
      let bestFeature := best.2.2.toNat
      let bestThreshold := best.2.1.toNat
      let leftChild := tree.length
      (tree.set leaf { nd2 with
          split := some (nd2.nodeFeatures.getD bestFeature 0,
            (nd2.nodeThresholds.getD bestFeature []).getD bestThreshold 0, leftChild),
          histogram := [],
          leftChildStatistics := [], rightChildStatistics := [],
          nodeThresholds := [], nodeFeatures := [] })
        ++ [{ defaultONode with
              depth := depth + 1
              histogram := updateLeafNodeHistogram lg []
                (nd2.leftChildStatistics.getD (slotIndex cfg.numThresholds bestFeature bestThreshold) [])
                cfg.smoothingParameter false },
            { defaultONode with
              depth := depth + 1
              histogram := updateLeafNodeHistogram lg []
                (nd2.rightChildStatistics.getD (slotIndex cfg.numThresholds bestFeature bestThreshold) [])
                cfg.smoothingParameter false }]

/-- Modelled from the spec: `findLeafNode` traversal (§6) for online trees,
with fuel (children always follow their parent in the node table). -/
def findLeafNodeGo (tree : List ONode) (x : List ℚ) : ℕ → ℕ → ℕ
  | 0, i => i
  | fuel + 1, i =>
    match (tree.getD i defaultONode).split with
    | none => i
    | some (f, θ, leftChild) =>
      findLeafNodeGo tree x fuel (leftChild + (if onlineGoesLeft (x.getD f 0) θ then 0 else 1))

def OnlineDecisionTree.findLeafNode (tree : List ONode) (x : List ℚ) : ℕ :=
  findLeafNodeGo tree x tree.length 0

/-- `OnlineDecisionTreeLearner::learn`: entry `BOOST_ASSERT`s
(`1 <= numFeatures && numFeatures <= D`, threshold-generator size `= D`, a
non-empty tree), the `numFeatures = min(numFeatures, D)` clamp, then one
sequential pass over the example stream, each visit routed through
`findLeafNode`.  `poissonDraw` is the oracle stream of realized Poisson
replication counts (used only with online bootstrap; otherwise `K = 1`),
`featStream`/`thrStream` the realized candidate-feature shuffles and
threshold-generator draws for lazy leaf initialization. -/
def OnlineDecisionTreeLearner.learn (E : List ℕ → ℚ) (lg : ℚ → ℚ) (cfg : OnlineConfig)
    (tgSize : ℕ) (storage : DataStorage) (tree : List ONode) (poissonDraw : ℕ → ℕ)
    (featStream : ℕ → List ℕ) (thrStream : ℕ → List (List ℚ)) :
    Except String (List ONode) :=
  if ¬ (1 ≤ cfg.numFeatures ∧ cfg.numFeatures ≤ storage.dim) then
    .error ("numFeatures out of range")
  else if ¬ (tgSize = storage.dim) then
    .error ("threshold generator size mismatch")
  else if ¬ (0 < tree.length) then
    .error ("tree must have at least the root node")
  else
    let numF := min cfg.numFeatures storage.dim
    .ok ((List.range storage.size).foldl (fun tr n =>
      onlineVisitLeaf E lg { cfg with numFeatures := numF } storage.classcount tr
        (OnlineDecisionTree.findLeafNode tr (storage.dataPoint n))
        (storage.dataPoint n) (storage.classLabel n)
        (if cfg.useBootstrap then poissonDraw n else 1)
        (featStream n) (thrStream n)) tree)

/-- The pair the axis-aligned sweep's current optimum was taken from, when
one was taken: some feature `f` with `bestFeature = f`, and two feature
values of the node's partition whose adjacent pair passed the skip test and
whose sum is the stored (undoubled) threshold. -/
def SweepPairOK (s : DataStorage) (part : List ℕ) (b : SweepBest) : Prop :=
  ∃ (f : ℕ) (lv rv : ℚ), b.bestFeature = (f : ℤ) ∧
    lv ∈ part.map (fun n => s.feat n f) ∧ rv ∈ part.map (fun n => s.feat n f) ∧
    sweepSkip lv rv = false ∧ b.bestThreshold = lv + rv

/-- Entropy instantiation used by the concrete evaluations below: `0` on pure
histograms — exactly as the true total entropy, which vanishes on pure
histograms — and `1` otherwise. -/
def pureGaugeEntropy (h : List ℕ) : ℚ := if histIsPure h then 0 else 1

/-- Two examples, one feature, both feature values exactly `-1e-6` (the value
at which the sweep's skip bound `1e-6 · max |v+1e-6| |v+1e-6|` collapses to
zero), with different labels. -/
def storageTie : DataStorage := ⟨[[-1/1000000], [-1/1000000]], [0, 1], 2, 1⟩

/-- A two-feature dataset that is perfectly separable on either feature, so
that the feature-shuffle draw decides which feature the root split uses. -/
def storageDet : DataStorage := ⟨[[0, 10], [1, 11], [10, 0], [11, 1]], [0, 0, 1, 1], 2, 2⟩

def cfgDet : StopConfig := ⟨0, 1, 1, 1, false⟩

def cfgC3 : OnlineConfig := ⟨1, 1, 0, 0, 5, 1, 1, false⟩

/-- Variant of `cfgC3` with `minSplitObjective = 1/2`. -/
def cfgC3b : OnlineConfig := ⟨1, 1, 0, 0, 5, 1/2, 1, false⟩

/-- A single-leaf online tree whose accumulated statistics are one visit away
from a split of gain exactly `1` (under `pureGaugeEntropy`). -/
def treeC3 : List ONode := [⟨0, none, [], [1, 0], [0], [[3]], [[1, 0]], [[0, 0]]⟩]

/-- One example, one feature, one class. -/
def storageOne : DataStorage := ⟨[[0]], [0], 1, 1⟩

def cfgC6 : StopConfig := ⟨0, 1, 5, 1, false⟩

/-- Three examples all carrying class label `1` (of two classes). -/
def storageMono : DataStorage := ⟨[[1], [2], [3]], [1, 1, 1], 2, 1⟩

/-- **C1** (code_bug evaluation).  The claim says every committed batch split
leaves both post-partition countdown counters at exactly zero
(`BOOST_ASSERT(bestLeftMass == 0)`, `BOOST_ASSERT(bestRightMass == 0)`).  On
a node whose two examples both have feature value exactly `-1e-6`, the skip
bound `1e-6 · max |v+1e-6| |v+1e-6|` is zero, so the equal-valued adjacent
pair is *not* skipped, a split with threshold `-1e-6` and sweep masses
`(1, 1)` is committed, both examples route right (`featureValue < threshold`
fails at equality), and the counters finish at `(1, -1)` — the source's
assertions fire after its debug dump. -/
theorem axis_commit_partition_counters_nonzero :
    axisChooseNode pureGaugeEntropy storageTie 1 1 [0] [1, 1] [0, 1] =
      AxisNodeResult.split 0 (-1/1000000) [] [1, 0] 1 (-1) := by
  with_unfolding_all rfl

/-- **C4** (code_bug evaluation).  The claim says two runs of the same batch
learner on a fixed dataset and seed sequence produce identical trees, with
all randomness drawn from a generator owned by the build.  The source draws
every per-node feature shuffle from the file-static
`std::random_device rd; std::mt19937 g(rd())`, so two runs realize
independent shuffle streams; realizing the two streams `[0,1]` and `[1,0]`
on the same dataset and configuration yields trees with different root split
features. -/
theorem axis_learn_differs_across_rng_streams :
    DecisionTreeLearner.learn pureGaugeEntropy id 1 (-1) cfgDet storageDet
      (fun _ => [0, 1]) (fun _ => 0) ≠
    DecisionTreeLearner.learn pureGaugeEntropy id 1 (-1) cfgDet storageDet
      (fun _ => [1, 0]) (fun _ => 0) := by
  have hA : DecisionTreeLearner.learn pureGaugeEntropy id 1 (-1) cfgDet storageDet
      (fun _ => [0, 1]) (fun _ => 0) =
      .ok [⟨0, some (.axisSplit 0 (11/2)), 1, []⟩, ⟨1, none, 0, [3/4, 1/4]⟩,
        ⟨1, none, 0, [1/4, 3/4]⟩] := by with_unfolding_all rfl
  have hB : DecisionTreeLearner.learn pureGaugeEntropy id 1 (-1) cfgDet storageDet
      (fun _ => [1, 0]) (fun _ => 0) =
      .ok [⟨0, some (.axisSplit 1 (11/2)), 1, []⟩, ⟨1, none, 0, [1/4, 3/4]⟩,
        ⟨1, none, 0, [3/4, 1/4]⟩] := by with_unfolding_all rfl
  rw [hA, hB]
  intro h
  simp only [Except.ok.injEq, List.cons.injEq, BNode.mk.injEq, Option.some.injEq,
    SplitDesc.axisSplit.injEq] at h
  omega

/-- **C6** (counterexample).  The claim says *every* learner variant aborts
fatally when the configured feature-sample count exceeds the dataset's
dimensionality.  The projective learner has no such check: with
`numFeatures = 5` on a 1-dimensional dataset it returns a tree normally. -/
theorem projective_learn_ignores_feature_count :
    storageOne.dim < 5 ∧
    ProjectiveDecisionTreeLearner.learn pureGaugeEntropy id 5 0 cfgC6 storageOne
      (fun _ _ => [1]) (fun _ => 0) = .ok [⟨0, none, 0, [1]⟩] := by
  exact ⟨by decide, by with_unfolding_all rfl⟩

/-- **C6** (amended).  The axis-aligned learner's `BOOST_ASSERT_MSG` and the
online learner's entry `BOOST_ASSERT` abort the build fatally when the
configured feature-sample count exceeds the dataset dimensionality; the
projective and dot-product learners perform no such check and return a tree
normally. -/
theorem feature_count_guard_by_learner
    (E : List ℕ → ℚ) (lg : ℚ → ℚ) (numFeatures numBootstrapExamples : ℤ)
    (cfg : StopConfig) (s : DataStorage) (perms : ℕ → List ℕ) (boot : ℕ → ℕ)
    (cfgO : OnlineConfig) (tgSize : ℕ) (tree : List ONode) (pd : ℕ → ℕ)
    (fs : ℕ → List ℕ) (ts : ℕ → List (List ℚ))
    (numFP numBP : ℕ) (projDraw : ℕ → ℕ → List ℚ) (anchorDraw : ℕ → ℕ → ℕ × ℕ × ℕ × ℕ)
    (hax : (s.dim : ℤ) < numFeatures) (hon : s.dim < cfgO.numFeatures) :
    DecisionTreeLearner.learn E lg numFeatures numBootstrapExamples cfg s perms boot =
      .error ("The number of feature evaluations must not exceed the feature dimension.") ∧
    OnlineDecisionTreeLearner.learn E lg cfgO tgSize s tree pd fs ts =
      .error ("numFeatures out of range") ∧
    (∃ t, ProjectiveDecisionTreeLearner.learn E lg numFP numBP cfg s projDraw boot = .ok t) ∧
    (∃ t, DotProductDecisionTreeLearner.learn E lg numFP numBP cfg s anchorDraw boot = .ok t) := by
  refine ⟨?_, ?_, ⟨_, rfl⟩, ⟨_, rfl⟩⟩
  · rw [DecisionTreeLearner.learn, if_pos]
    omega
  · rw [OnlineDecisionTreeLearner.learn, if_pos]
    omega

/-- Witness for `feature_count_guard_by_learner` at a concrete instance:
`numFeatures = 5` against the 1-dimensional `storageOne`. -/
theorem feature_count_guard_by_learner_witness :
    DecisionTreeLearner.learn pureGaugeEntropy id 5 0 cfgC6 storageOne
      (fun _ => [0]) (fun _ => 0) =
      .error ("The number of feature evaluations must not exceed the feature dimension.") ∧
    OnlineDecisionTreeLearner.learn pureGaugeEntropy id ⟨5, 1, 0, 0, 5, 1, 1, false⟩ 1
      storageOne [defaultONode]
      (fun _ => 1) (fun _ => [0]) (fun _ => [[0]]) = .error ("numFeatures out of range") ∧
    (∃ t, ProjectiveDecisionTreeLearner.learn pureGaugeEntropy id 5 0 cfgC6 storageOne
      (fun _ _ => [1]) (fun _ => 0) = .ok t) ∧
    (∃ t, DotProductDecisionTreeLearner.learn pureGaugeEntropy id 5 0 cfgC6 storageOne
      (fun _ _ => (0, 0, 0, 0)) (fun _ => 0) = .ok t) := by
  exact feature_count_guard_by_learner pureGaugeEntropy id 5 0 cfgC6 storageOne
    (fun _ => [0]) (fun _ => 0) ⟨5, 1, 0, 0, 5, 1, 1, false⟩ 1 [defaultONode] (fun _ => 1)
    (fun _ => [0]) (fun _ => [[0]]) 5 0 (fun _ _ => [1]) (fun _ _ => (0, 0, 0, 0))
    (by decide) (by decide)

/-- **C2**.  When a leaf is finalized with bootstrap resampling off,
`updateLeafNodeHistogram` fills the leaf vector with the smoothed
log-probability `log((count_c + α)/(mass + numClasses·α))` for every class
`c`; when the tree was grown on a bootstrap resample the smoothing is
skipped entirely — the vector is merely resized (zero-padded), no
log-probability is written — deferred to the global histogram refresh pass.
Additionally, every batch leaf finalization (`finalizeLeaf`) passes the
learner's bootstrap flag through unchanged. -/
theorem updateLeafNodeHistogram_smoothing_spec (lg : ℚ → ℚ) (old : List ℚ)
    (hist : List ℕ) (α : ℚ) :
    ((updateLeafNodeHistogram lg old hist α false).length = hist.length ∧
      ∀ c, c < hist.length →
        (updateLeafNodeHistogram lg old hist α false).getD c 0 =
          lg (((histAt hist c : ℚ) + α) /
            ((histMass hist : ℚ) + (hist.length : ℚ) * α))) ∧
    updateLeafNodeHistogram lg old hist α true =
      old.take hist.length ++ List.replicate (hist.length - old.length) 0 ∧
    ∀ (cfg : StopConfig) (tree : List BNode) (i : ℕ), i < tree.length →
      (finalizeLeaf lg cfg tree i hist).getD i defaultBNode =
        { tree.getD i defaultBNode with
            histogram := updateLeafNodeHistogram lg
              (tree.getD i defaultBNode).histogram hist cfg.smoothingParameter
              cfg.useBootstrap } := by
  refine ⟨⟨?_, ?_⟩, ?_, ?_⟩
  · simp [updateLeafNodeHistogram]
  · intro c hc
    rw [updateLeafNodeHistogram]
    simp only [Bool.not_false, if_pos]
    rw [List.getD_eq_getElem _ _ (by simpa using hc), List.getElem_map, List.getElem_range]
  · rfl
  · intro cfg tree i hi
    rw [finalizeLeaf, treeModify, List.getD_eq_getElem _ _ (by simpa using hi)]
    simp

/-- Witness for `updateLeafNodeHistogram_smoothing_spec`: histogram `[2, 1]`,
`α = 1`, identity in place of `log`: the non-bootstrap entry for class 0 is
`(2+1)/(3+2·1) = 3/5`, and with bootstrap the fresh vector is zero-filled. -/
theorem updateLeafNodeHistogram_smoothing_spec_witness :
    (updateLeafNodeHistogram id [] [2, 1] 1 false).getD 0 0 = 3/5 ∧
    updateLeafNodeHistogram id [] [2, 1] 1 true = [0, 0] := by
  constructor
  · have h := (updateLeafNodeHistogram_smoothing_spec id [] [2, 1] 1).1.2 0 (by norm_num)
    rw [h]
    with_unfolding_all rfl
  · have h := (updateLeafNodeHistogram_smoothing_spec id [] [2, 1] 1).2.1
    rw [h]
    rfl

/-- **C9**.  In all four learners an example whose split-decision value
exactly equals the threshold is routed to the right child: the four decision
predicates use strict `<` for the left side, and the three batch partition
passes place such an example in the right list and not in the left one
(`onlineGoesLeft` is the predicate `updateSplitStatistics` and
`findLeafNode` route by). -/
theorem equality_routes_right :
    (∀ v θ : ℚ, v = θ →
      axisGoesLeft v θ = false ∧ onlineGoesLeft v θ = false ∧
        dotGoesLeft v θ = false ∧ projGoesLeft 0 = false) ∧
    (∀ (s : DataStorage) (f : ℕ) (θ : ℚ) (part : List ℕ) (n : ℕ), n ∈ part →
      s.feat n f = θ →
      n ∈ (axisPartitionPass s f θ part).2 ∧ n ∉ (axisPartitionPass s f θ part).1) ∧
    (∀ (s : DataStorage) (x1 x2 : List ℚ) (θ : ℚ) (part : List ℕ) (n : ℕ), n ∈ part →
      dotProd (s.dataPoint n) x2 - dotProd (s.dataPoint n) x1 = θ →
      n ∈ (dotPartitionPass s x1 x2 θ part).2 ∧ n ∉ (dotPartitionPass s x1 x2 θ part).1) ∧
    (∀ (s : DataStorage) (p : List ℚ) (part : List ℕ) (n : ℕ), n ∈ part →
      dotProd p (s.dataPoint n) = 0 →
      n ∈ (projPartitionPass s p part).2 ∧ n ∉ (projPartitionPass s p part).1) := by
  refine ⟨?_, ?_, ?_, ?_⟩
  · intro v θ hv
    subst hv
    simp [axisGoesLeft, onlineGoesLeft, dotGoesLeft, projGoesLeft]
  · intro s f θ part n hn hv
    constructor
    · simp [axisPartitionPass, List.mem_reverse, List.mem_filter, axisGoesLeft, hn, hv]
    · simp [axisPartitionPass, List.mem_reverse, List.mem_filter, axisGoesLeft, hv]
  · intro s x1 x2 θ part n hn hv
    constructor
    · simp [dotPartitionPass, List.mem_reverse, List.mem_filter, dotGoesLeft, hn, hv]
    · simp [dotPartitionPass, List.mem_reverse, List.mem_filter, dotGoesLeft, hv]
  · intro s p part n hn hv
    constructor
    · simp [projPartitionPass, List.mem_reverse, List.mem_filter, projGoesLeft, hn, hv]
    · simp [projPartitionPass, List.mem_reverse, List.mem_filter, projGoesLeft, hv]

/-- Witness for `equality_routes_right`: feature value `5` against threshold
`5` on a one-example partition — the example ends up in the right list. -/
theorem equality_routes_right_witness :
    axisGoesLeft 5 5 = false ∧
    0 ∈ (axisPartitionPass ⟨[[5]], [0], 1, 1⟩ 0 5 [0]).2 ∧
    0 ∉ (axisPartitionPass ⟨[[5]], [0], 1, 1⟩ 0 5 [0]).1 := by
  refine ⟨(equality_routes_right.1 5 5 rfl).1, ?_, ?_⟩
  · exact (equality_routes_right.2.1 ⟨[[5]], [0], 1, 1⟩ 0 5 [0] 0 (by simp)
      (by with_unfolding_all rfl)).1
  · exact (equality_routes_right.2.1 ⟨[[5]], [0], 1, 1⟩ 0 5 [0] 0 (by simp)
      (by with_unfolding_all rfl)).2

theorem histAddOne_set_const (C ℓ k : ℕ) (hℓ : ℓ < C) :
    histAddOne ((List.replicate C 0).set ℓ k) ℓ = (List.replicate C 0).set ℓ (k + 1) := by
  rw [histAddOne]
  have hlen : ℓ < ((List.replicate C 0).set ℓ k).length := by simpa using hℓ
  rw [List.getD_eq_getElem _ _ hlen, List.getElem_set_self, List.set_set]

theorem set_replicate_zero (C ℓ : ℕ) :
    (List.replicate C 0 : List ℕ).set ℓ 0 = List.replicate C 0 := by
  refine List.ext_getElem (by simp) ?_
  intro n h1 h2
  rw [List.getElem_set, List.getElem_replicate]
  split <;> rfl

theorem foldl_addOne_const (s : DataStorage) (ℓ : ℕ) (hℓ : ℓ < s.classcount) :
    ∀ (part : List ℕ) (k : ℕ), (∀ n ∈ part, s.classLabel n = ℓ) →
      part.foldl (fun h n => histAddOne h (s.classLabel n))
          ((List.replicate s.classcount 0).set ℓ k) =
        (List.replicate s.classcount 0).set ℓ (k + part.length) := by
  intro part
  induction part with
  | nil => intro k _; simp
  | cons n ms ih =>
    intro k h
    rw [List.foldl_cons, h n (by simp), histAddOne_set_const _ _ _ hℓ,
      ih (k + 1) (fun m hm => h m (by simp [hm]))]
    congr 1
    simp
    omega

theorem histOfExamples_const_label (s : DataStorage) (ℓ : ℕ) (part : List ℕ)
    (hℓ : ℓ < s.classcount) (h : ∀ n ∈ part, s.classLabel n = ℓ) :
    histOfExamples s part = (List.replicate s.classcount 0).set ℓ part.length := by
  rw [histOfExamples, ← set_replicate_zero s.classcount ℓ,
    foldl_addOne_const s ℓ hℓ part 0 h]
  simp

theorem filter_length_set_le (p : ℕ → Bool) : ∀ (l : List ℕ) (i a : ℕ),
    ((l.set i a).filter p).length ≤ (l.filter p).length + 1 := by
  intro l
  induction l with
  | nil => intro i a; simp
  | cons x xs ih =>
    intro i a
    cases i with
    | zero =>
      rw [List.set_cons_zero, List.filter_cons, List.filter_cons]
      cases p a <;> cases p x <;> simp
      all_goals omega
    | succ j =>
      rw [List.set_cons_succ, List.filter_cons, List.filter_cons]
      cases hpx : p x
      · simp only [hpx, Bool.false_eq_true, if_false]
        exact ih j a
      · simp only [hpx, if_true, List.length_cons]
        exact Nat.succ_le_succ (ih j a)

theorem histIsPure_single (C ℓ m : ℕ) :
    histIsPure ((List.replicate C 0).set ℓ m) = true := by
  rw [histIsPure]
  have h := filter_length_set_le (fun k => k != 0) (List.replicate C 0) ℓ m
  rw [List.filter_replicate] at h
  simp only [bne_self_eq_false, if_false, List.length_nil] at h
  simpa using h

theorem batchLoop_pure_root (E : List ℕ → ℚ) (lg : ℚ → ℚ) (cfg : StopConfig)
    (s : DataStorage) (chooser : ℕ → List ℕ → List ℕ → Option (SplitDesc × List ℕ × List ℕ))
    (part : List ℕ) (hpure : histIsPure (histOfExamples s part) = true) :
    batchLoop E lg cfg s chooser [⟨0, 0, part⟩] [defaultBNode] 0 =
      [{ defaultBNode with
          histogram := updateLeafNodeHistogram lg [] (histOfExamples s part)
            cfg.smoothingParameter cfg.useBootstrap }] := by
  rw [batchLoop]
  rw [dif_pos (Or.inr (Or.inl hpure))]
  rw [batchLoop]
  rw [finalizeLeaf, treeModify]
  rfl

theorem updateHistograms_length (lg : ℚ → ℚ) (tree : List BNode) (s : DataStorage)
    (α : ℚ) : (TreeLearningTools.updateHistograms lg tree s α).length = tree.length := by
  simp [TreeLearningTools.updateHistograms]

theorem updateHistograms_node (lg : ℚ → ℚ) (tree : List BNode) (s : DataStorage)
    (α : ℚ) (i : ℕ) :
    ((TreeLearningTools.updateHistograms lg tree s α).getD i defaultBNode).desc =
      (tree.getD i defaultBNode).desc ∧
    ((TreeLearningTools.updateHistograms lg tree s α).getD i defaultBNode).depth =
      (tree.getD i defaultBNode).depth := by
  by_cases hi : i < tree.length
  · have hi' : i < (TreeLearningTools.updateHistograms lg tree s α).length := by
      rwa [updateHistograms_length]
    rw [List.getD_eq_getElem _ _ hi']
    unfold TreeLearningTools.updateHistograms
    rw [List.getElem_map]
    rw [List.getElem_range]
    simp only [List.getD]
    cases hdesc : (tree[i]?.getD defaultBNode).desc <;> simp [hdesc]
  · rw [List.getD_eq_default _ _ (by omega : tree.length ≤ i),
      List.getD_eq_default _ _ (by rw [updateHistograms_length]; omega)]
    exact ⟨rfl, rfl⟩

/-- **C8**.  On a non-empty dataset whose examples all carry the same class
label `ℓ`, each of the three batch learners produces a single-node tree: the
root histogram is pure, so the root is finalized as a leaf before any split
search runs, whatever the remaining configuration (including bootstrap
resampling, whose resample of a single-class dataset is still single-class,
and whose post-pass rewrites histograms but never adds nodes). -/
theorem single_class_yields_single_node (E : List ℕ → ℚ) (lg : ℚ → ℚ)
    (numFeatures numBootstrapExamples : ℤ) (numFP numBP numFD numBD : ℕ)
    (cfg : StopConfig) (s : DataStorage) (perms : ℕ → List ℕ) (boot : ℕ → ℕ)
    (projDraw : ℕ → ℕ → List ℚ) (anchorDraw : ℕ → ℕ → ℕ × ℕ × ℕ × ℕ) (ℓ : ℕ)
    (hℓ : ℓ < s.classcount) (hne : 0 < s.size)
    (hlab : ∀ n, n < s.size → s.classLabel n = ℓ)
    (hax : numFeatures ≤ (s.dim : ℤ)) :
    (∃ t, DecisionTreeLearner.learn E lg numFeatures numBootstrapExamples cfg s perms boot =
        .ok t ∧ t.length = 1 ∧ (t.getD 0 defaultBNode).desc = none) ∧
    (∃ t, ProjectiveDecisionTreeLearner.learn E lg numFP numBP cfg s projDraw boot =
        .ok t ∧ t.length = 1 ∧ (t.getD 0 defaultBNode).desc = none) ∧
    (∃ t, DotProductDecisionTreeLearner.learn E lg numFD numBD cfg s anchorDraw boot =
        .ok t ∧ t.length = 1 ∧ (t.getD 0 defaultBNode).desc = none) := by
  have hboot : ∀ (count : ℕ) (draw : ℕ → ℕ),
      histIsPure (histOfExamples (s.bootstrap count draw)
        (List.range (s.bootstrap count draw).size)) = true := by
    intro count draw
    rw [histOfExamples_const_label (s.bootstrap count draw) ℓ _
      (by simpa [DataStorage.bootstrap] using hℓ)]
    · exact histIsPure_single _ _ _
    · intro n hn
      simp only [List.mem_range] at hn
      have hsize : (s.bootstrap count draw).size = count := by
        simp [DataStorage.bootstrap, DataStorage.size]
      rw [hsize] at hn
      have : (s.bootstrap count draw).classLabel n = s.classLabel (draw n % s.size) := by
        simp only [DataStorage.bootstrap, DataStorage.classLabel]
        rw [List.getD_eq_getElem _ _ (by simpa using hn), List.getElem_map,
          List.getElem_range]
      rw [this]
      exact hlab _ (Nat.mod_lt _ hne)
  have hplain : histIsPure (histOfExamples s (List.range s.size)) = true := by
    rw [histOfExamples_const_label s ℓ _ hℓ
      (fun n hn => hlab n (by simpa using hn))]
    exact histIsPure_single _ _ _
  have hsto : ∀ (s' : DataStorage), histIsPure (histOfExamples s' (List.range s'.size)) = true →
      ∀ (chooser : ℕ → List ℕ → List ℕ → Option (SplitDesc × List ℕ × List ℕ)),
      (batchLoop E lg cfg s' chooser [⟨0, 0, List.range s'.size⟩] [defaultBNode] 0).length = 1 ∧
      ((batchLoop E lg cfg s' chooser [⟨0, 0, List.range s'.size⟩]
        [defaultBNode] 0).getD 0 defaultBNode).desc = none := by
    intro s' hp chooser
    rw [batchLoop_pure_root E lg cfg s' chooser _ hp]
    exact ⟨rfl, rfl⟩
  have hfinal : ∀ (result : List BNode), result.length = 1 →
      (result.getD 0 defaultBNode).desc = none →
      ∀ (b : Bool),
        (if b then TreeLearningTools.updateHistograms lg result s cfg.smoothingParameter
          else result).length = 1 ∧
        ((if b then TreeLearningTools.updateHistograms lg result s cfg.smoothingParameter
          else result).getD 0 defaultBNode).desc = none := by
    intro result h1 h2 b
    cases b
    · exact ⟨h1, h2⟩
    · refine ⟨by rw [if_pos rfl, updateHistograms_length]; exact h1, ?_⟩
      rw [if_pos rfl, (updateHistograms_node lg result s cfg.smoothingParameter 0).1]
      exact h2
  refine ⟨?_, ?_, ?_⟩
  · rw [DecisionTreeLearner.learn, if_neg (by omega)]
    refine ⟨_, rfl, ?_⟩
    cases hb : cfg.useBootstrap
    · simpa [hb] using hfinal _ ((hsto s hplain) _).1 ((hsto s hplain) _).2 false
    · simpa [hb] using hfinal _ ((hsto _ (hboot _ boot)) _).1 ((hsto _ (hboot _ boot)) _).2 true
  · rw [ProjectiveDecisionTreeLearner.learn]
    refine ⟨_, rfl, ?_⟩
    cases hb : cfg.useBootstrap
    · simpa [hb] using hfinal _ ((hsto s hplain) _).1 ((hsto s hplain) _).2 false
    · simpa [hb] using hfinal _ ((hsto _ (hboot _ boot)) _).1 ((hsto _ (hboot _ boot)) _).2 true
  · rw [DotProductDecisionTreeLearner.learn]
    refine ⟨_, rfl, ?_⟩
    cases hb : cfg.useBootstrap
    · simpa [hb] using hfinal _ ((hsto s hplain) _).1 ((hsto s hplain) _).2 false
    · simpa [hb] using hfinal _ ((hsto _ (hboot _ boot)) _).1 ((hsto _ (hboot _ boot)) _).2 true

/-- Witness for `single_class_yields_single_node`: the three-example
single-label dataset `storageMono`. -/
theorem single_class_yields_single_node_witness :
    (∃ t, DecisionTreeLearner.learn pureGaugeEntropy id 1 (-1) cfgDet storageMono
        (fun _ => [0]) (fun _ => 0) = .ok t ∧ t.length = 1 ∧
        (t.getD 0 defaultBNode).desc = none) ∧
    (∃ t, ProjectiveDecisionTreeLearner.learn pureGaugeEntropy id 2 3 cfgDet storageMono
        (fun _ _ => [1]) (fun _ => 0) = .ok t ∧ t.length = 1 ∧
        (t.getD 0 defaultBNode).desc = none) ∧
    (∃ t, DotProductDecisionTreeLearner.learn pureGaugeEntropy id 2 3 cfgDet storageMono
        (fun _ _ => (0, 0, 0, 0)) (fun _ => 0) = .ok t ∧ t.length = 1 ∧
        (t.getD 0 defaultBNode).desc = none) := by
  exact single_class_yields_single_node pureGaugeEntropy id 1 (-1) 2 3 2 3 cfgDet
    storageMono (fun _ => [0]) (fun _ => 0) (fun _ _ => [1]) (fun _ _ => (0, 0, 0, 0)) 1
    (by decide) (by decide) (by decide) (by decide)

theorem depth_treeModify_le (tree : List BNode) (i : ℕ) (f : BNode → BNode) (M : ℕ)
    (hf : ∀ nd, (f nd).depth = nd.depth) (h : ∀ nd ∈ tree, nd.depth ≤ M) :
    ∀ nd ∈ treeModify tree i f, nd.depth ≤ M := by
  intro nd hnd
  rw [treeModify] at hnd
  rcases List.mem_or_eq_of_mem_set hnd with h1 | h1
  · exact h nd h1
  · subst h1
    rw [hf]
    by_cases hi : i < tree.length
    · exact h _ (by rw [List.getD_eq_getElem _ _ hi]; exact List.getElem_mem _)
    · rw [List.getD_eq_default _ _ (by omega)]
      exact Nat.zero_le M

theorem batchLoop_depth_le (E : List ℕ → ℚ) (lg : ℚ → ℚ) (cfg : StopConfig)
    (s : DataStorage)
    (chooser : ℕ → List ℕ → List ℕ → Option (SplitDesc × List ℕ × List ℕ)) :
    ∀ (tasks : List SplitTask) (tree : List BNode) (visit : ℕ),
      (∀ u ∈ tasks, u.depth ≤ cfg.maxDepth) →
      (∀ nd ∈ tree, nd.depth ≤ cfg.maxDepth) →
      ∀ nd ∈ batchLoop E lg cfg s chooser tasks tree visit, nd.depth ≤ cfg.maxDepth := by
  intro tasks tree visit
  induction tasks, tree, visit using batchLoop.induct E lg cfg s chooser with
  | case1 tree visit =>
    intro _ htree nd hnd
    rw [batchLoop] at hnd
    exact htree nd hnd
  | case2 t rest tree visit hist h ih =>
    intro htasks htree nd hnd
    rw [batchLoop, dif_pos h] at hnd
    exact ih (fun u hu => htasks u (List.mem_cons_of_mem _ hu))
      (depth_treeModify_le _ _ _ _ (fun _ => rfl) htree) nd hnd
  | case3 t rest tree visit hist h hch ih =>
    intro htasks htree nd hnd
    rw [batchLoop, dif_neg h, hch] at hnd
    exact ih (fun u hu => htasks u (List.mem_cons_of_mem _ hu))
      (depth_treeModify_le _ _ _ _ (fun _ => rfl) htree) nd hnd
  | case4 t rest tree visit hist h desc leftPart rightPart hch leftChild ih =>
    intro htasks htree nd hnd
    rw [batchLoop, dif_neg h, hch] at hnd
    have hd : t.depth < cfg.maxDepth := by push_neg at h; omega
    refine ih ?_ ?_ nd hnd
    · intro u hu
      rcases List.mem_cons.mp hu with rfl | hu
      · exact hd
      rcases List.mem_cons.mp hu with rfl | hu
      · exact hd
      exact htasks u (List.mem_cons_of_mem _ hu)
    · intro nd' hnd'
      rw [commitSplit] at hnd'
      rcases List.mem_append.mp hnd' with h1 | h1
      · refine depth_treeModify_le _ _ _ _ ?_ htree nd' h1
        intro nd''
        rfl
      · rcases List.mem_cons.mp h1 with rfl | h1
        · exact hd
        rcases List.mem_cons.mp h1 with rfl | h1
        · exact hd
        exact absurd h1 (List.not_mem_nil _)

theorem updateHistograms_depth_le (lg : ℚ → ℚ) (tree : List BNode) (s : DataStorage)
    (α : ℚ) (M : ℕ) (h : ∀ nd ∈ tree, nd.depth ≤ M) :
    ∀ nd ∈ TreeLearningTools.updateHistograms lg tree s α, nd.depth ≤ M := by
  intro nd hnd
  unfold TreeLearningTools.updateHistograms at hnd
  rcases List.mem_map.mp hnd with ⟨i, hi, rfl⟩
  have hi' : i < tree.length := by simpa using hi
  have hd : (tree.getD i defaultBNode).depth ≤ M := by
    rw [List.getD_eq_getElem _ _ hi']
    exact h _ (List.getElem_mem _)
  cases hdesc : (tree.getD i defaultBNode).desc <;> simp only [hdesc] <;> exact hd

theorem onlineVisitPrep_depth (cfg : OnlineConfig) (C : ℕ) (tree : List ONode) (leaf : ℕ)
    (x : List ℚ) (label : ℕ) (K : ℕ) (ff : List ℕ) (ft : List (List ℚ)) :
    (onlineVisitPrep cfg C tree leaf x label K ff ft).depth =
      (tree.getD leaf defaultONode).depth := by
  rw [onlineVisitPrep]
  dsimp only
  split <;> rfl

theorem onlineVisitLeaf_depth_le (E : List ℕ → ℚ) (lg : ℚ → ℚ) (cfg : OnlineConfig)
    (C : ℕ) (tree : List ONode) (leaf : ℕ) (x : List ℚ) (label : ℕ) (K : ℕ)
    (ff : List ℕ) (ft : List (List ℚ))
    (htree : ∀ nd ∈ tree, nd.depth ≤ cfg.maxDepth) :
    ∀ nd ∈ onlineVisitLeaf E lg cfg C tree leaf x label K ff ft,
      nd.depth ≤ cfg.maxDepth := by
  have hset : ∀ (nd2 : ONode), nd2.depth ≤ cfg.maxDepth →
      ∀ nd ∈ tree.set leaf nd2, nd.depth ≤ cfg.maxDepth := by
    intro nd2 h2 nd hnd
    rcases List.mem_or_eq_of_mem_set hnd with h1 | h1
    · exact htree nd h1
    · subst h1; exact h2
  have hdepth : (onlineVisitPrep cfg C tree leaf x label K ff ft).depth ≤ cfg.maxDepth := by
    rw [onlineVisitPrep_depth]
    by_cases hi : leaf < tree.length
    · exact htree _ (by rw [List.getD_eq_getElem _ _ hi]; exact List.getElem_mem _)
    · rw [List.getD_eq_default _ _ (by omega)]
      exact Nat.zero_le _
  intro nd hnd
  rw [onlineVisitLeaf] at hnd
  dsimp only at hnd
  by_cases h1 : onlineStopCheck cfg (onlineVisitPrep cfg C tree leaf x label K ff ft)
  · rw [if_pos h1] at hnd
    refine hset _ ?_ nd hnd
    exact hdepth
  · rw [if_neg h1] at hnd
    have hlt : (onlineVisitPrep cfg C tree leaf x label K ff ft).depth < cfg.maxDepth := by
      rw [onlineStopCheck] at h1
      push_neg at h1
      omega
    split at hnd
    · refine hset _ ?_ nd hnd
      exact hdepth
    · rcases List.mem_append.mp hnd with h2 | h2
      · refine hset _ ?_ nd h2
        exact hdepth
      · rcases List.mem_cons.mp h2 with rfl | h2
        · exact hlt
        rcases List.mem_cons.mp h2 with rfl | h2
        · exact hlt
        exact absurd h2 (List.not_mem_nil _)

/-- **C7**.  No node of any output tree of any of the four learners exceeds
the configured maximum depth: batch learners split only nodes whose depth is
strictly below `maxDepth` (children sit at depth + 1), the bootstrap
histogram-refresh pass never changes depths, and the online learner splits a
visited leaf only after the same depth re-check, so it preserves the bound
of its input tree. -/
theorem learners_respect_max_depth (E : List ℕ → ℚ) (lg : ℚ → ℚ)
    (numFeatures numBootstrapExamples : ℤ) (numFP numBP numFD numBD : ℕ)
    (cfg : StopConfig) (s : DataStorage) (perms : ℕ → List ℕ) (boot : ℕ → ℕ)
    (projDraw : ℕ → ℕ → List ℚ) (anchorDraw : ℕ → ℕ → ℕ × ℕ × ℕ × ℕ)
    (cfgO : OnlineConfig) (tgSize : ℕ) (tree0 : List ONode) (pd : ℕ → ℕ)
    (fstr : ℕ → List ℕ) (tstr : ℕ → List (List ℚ)) :
    (∀ t, DecisionTreeLearner.learn E lg numFeatures numBootstrapExamples cfg s perms boot =
        .ok t → ∀ nd ∈ t, nd.depth ≤ cfg.maxDepth) ∧
    (∀ t, ProjectiveDecisionTreeLearner.learn E lg numFP numBP cfg s projDraw boot =
        .ok t → ∀ nd ∈ t, nd.depth ≤ cfg.maxDepth) ∧
    (∀ t, DotProductDecisionTreeLearner.learn E lg numFD numBD cfg s anchorDraw boot =
        .ok t → ∀ nd ∈ t, nd.depth ≤ cfg.maxDepth) ∧
    (∀ t, (∀ nd ∈ tree0, nd.depth ≤ cfgO.maxDepth) →
      OnlineDecisionTreeLearner.learn E lg cfgO tgSize s tree0 pd fstr tstr = .ok t →
      ∀ nd ∈ t, nd.depth ≤ cfgO.maxDepth) := by
  have hroot : ∀ (s' : DataStorage)
      (chooser : ℕ → List ℕ → List ℕ → Option (SplitDesc × List ℕ × List ℕ)),
      ∀ nd ∈ batchLoop E lg cfg s' chooser [⟨0, 0, List.range s'.size⟩] [defaultBNode] 0,
        nd.depth ≤ cfg.maxDepth := by
    intro s' chooser
    refine batchLoop_depth_le E lg cfg s' chooser _ _ _ ?_ ?_
    · intro u hu
      rcases List.mem_cons.mp hu with rfl | hu
      · exact Nat.zero_le _
      · exact absurd hu (List.not_mem_nil _)
    · intro nd hnd
      rcases List.mem_cons.mp hnd with rfl | hnd
      · exact Nat.zero_le _
      · exact absurd hnd (List.not_mem_nil _)
  have hpost : ∀ (result : List BNode), (∀ nd ∈ result, nd.depth ≤ cfg.maxDepth) →
      ∀ nd ∈ (if cfg.useBootstrap then
          TreeLearningTools.updateHistograms lg result s cfg.smoothingParameter
        else result), nd.depth ≤ cfg.maxDepth := by
    intro result h
    split
    · exact updateHistograms_depth_le lg result s cfg.smoothingParameter _ h
    · exact h
  refine ⟨?_, ?_, ?_, ?_⟩
  · intro t ht
    rw [DecisionTreeLearner.learn] at ht
    split at ht
    · exact absurd ht (by simp)
    · simp only [Except.ok.injEq] at ht
      subst ht
      exact hpost _ (hroot _ _)
  · intro t ht
    rw [ProjectiveDecisionTreeLearner.learn] at ht
    simp only [Except.ok.injEq] at ht
    subst ht
    exact hpost _ (hroot _ _)
  · intro t ht
    rw [DotProductDecisionTreeLearner.learn] at ht
    simp only [Except.ok.injEq] at ht
    subst ht
    exact hpost _ (hroot _ _)
  · intro t htree0 ht
    rw [OnlineDecisionTreeLearner.learn] at ht
    split at ht
    · exact absurd ht (by simp)
    split at ht
    · exact absurd ht (by simp)
    split at ht
    · exact absurd ht (by simp)
    simp only [Except.ok.injEq] at ht
    subst ht
    have hfold : ∀ (l : List ℕ) (tr0 : List ONode),
        (∀ nd ∈ tr0, nd.depth ≤ cfgO.maxDepth) →
        ∀ nd ∈ l.foldl (fun tr n =>
          onlineVisitLeaf E lg { cfgO with numFeatures := min cfgO.numFeatures s.dim }
            s.classcount tr (OnlineDecisionTree.findLeafNode tr (s.dataPoint n))
            (s.dataPoint n) (s.classLabel n)
            (if cfgO.useBootstrap then pd n else 1) (fstr n) (tstr n)) tr0,
          nd.depth ≤ cfgO.maxDepth := by
      intro l
      induction l with
      | nil => intro tr0 h0; simpa using h0
      | cons a l ih =>
        intro tr0 h0
        rw [List.foldl_cons]
        exact ih _ (onlineVisitLeaf_depth_le E lg _ _ _ _ _ _ _ _ _ h0)
    exact hfold _ _ htree0

/-- Witness for `learners_respect_max_depth`: the depth-1 trees grown on
`storageDet` with `maxDepth = 1`, and the online run on `treeC3`. -/
theorem learners_respect_max_depth_witness :
    ∀ nd ∈ [(⟨0, some (.axisSplit 0 (11/2)), 1, []⟩ : BNode),
      ⟨1, none, 0, [3/4, 1/4]⟩, ⟨1, none, 0, [1/4, 3/4]⟩], nd.depth ≤ cfgDet.maxDepth := by
  have h := (learners_respect_max_depth pureGaugeEntropy id 1 (-1) 2 3 2 3 cfgDet
    storageDet (fun _ => [0, 1]) (fun _ => 0) (fun _ _ => [1]) (fun _ _ => (0, 0, 0, 0))
    cfgC3 1 treeC3 (fun _ => 1) (fun _ => [0]) (fun _ => [[0]])).1
  exact h _ (by with_unfolding_all rfl)

theorem updateLeafNodeHistogram_false_eq (lg : ℚ → ℚ) (v : List ℚ) (hist : List ℕ)
    (α : ℚ) : updateLeafNodeHistogram lg v hist α false = smoothedLogHistogram lg hist α :=
  rfl

theorem getD_set_self_of_lt {α : Type} (l : List α) (i : ℕ) (a d : α) (h : i < l.length) :
    (l.set i a).getD i d = a := by
  rw [List.getD_eq_getElem _ _ (by simpa using h), List.getElem_set_self]

theorem getD_append_left_of_lt {α : Type} (l m : List α) (i : ℕ) (d : α)
    (h : i < l.length) : (l ++ m).getD i d = l.getD i d := by
  rw [List.getD_eq_getElem _ _ (by simp; omega), List.getElem_append_left h,
    List.getD_eq_getElem _ _ h]

theorem getD_set_append_children {α : Type} (l : List α) (i : ℕ) (a c1 c2 d : α) :
    ((l.set i a) ++ [c1, c2]).getD l.length d = c1 ∧
    ((l.set i a) ++ [c1, c2]).getD (l.length + 1) d = c2 := by
  constructor
  · rw [List.getD_eq_getElem _ _ (by simp), List.getElem_append_right (by simp)]
    simp
  · rw [List.getD_eq_getElem _ _ (by simp), List.getElem_append_right (by simp)]
    simp

/-- **C10**.  The online learner always writes smoothed leaf log-probability
vectors — every `updateLeafNodeHistogram` call in the online path passes
`useBootstrap = false`, even when online Poisson bagging
(`cfg.useBootstrap`) is on: on a visit that does not commit (stop re-check
hit, or best gain below the minimum) the visited leaf's histogram is
recomputed smoothed from its accumulated node statistics; on a committed
split both new children's histograms are written smoothed from the winning
slot's accumulated left/right statistics and the former leaf's histogram is
cleared. -/
theorem online_leaf_histograms_always_smoothed (E : List ℕ → ℚ) (lg : ℚ → ℚ)
    (cfg : OnlineConfig) (C : ℕ) (tree : List ONode) (leaf : ℕ) (x : List ℚ)
    (label : ℕ) (K : ℕ) (ff : List ℕ) (ft : List (List ℚ))
    (hleaf : leaf < tree.length) :
    (onlineStopCheck cfg (onlineVisitPrep cfg C tree leaf x label K ff ft) ∨
        (onlineScan E (onlineVisitPrep cfg C tree leaf x label K ff ft).nodeStatistics
          (onlineVisitPrep cfg C tree leaf x label K ff ft).leftChildStatistics
          (onlineVisitPrep cfg C tree leaf x label K ff ft).rightChildStatistics
          cfg.numFeatures cfg.numThresholds cfg.minChildSplitExamples).1 <
          cfg.minSplitObjective →
      ((onlineVisitLeaf E lg cfg C tree leaf x label K ff ft).getD leaf
          defaultONode).histogram =
        smoothedLogHistogram lg
          (onlineVisitPrep cfg C tree leaf x label K ff ft).nodeStatistics
          cfg.smoothingParameter) ∧
    (¬ onlineStopCheck cfg (onlineVisitPrep cfg C tree leaf x label K ff ft) →
      cfg.minSplitObjective ≤
        (onlineScan E (onlineVisitPrep cfg C tree leaf x label K ff ft).nodeStatistics
          (onlineVisitPrep cfg C tree leaf x label K ff ft).leftChildStatistics
          (onlineVisitPrep cfg C tree leaf x label K ff ft).rightChildStatistics
          cfg.numFeatures cfg.numThresholds cfg.minChildSplitExamples).1 →
      ((onlineVisitLeaf E lg cfg C tree leaf x label K ff ft).getD leaf
          defaultONode).histogram = [] ∧
      ((onlineVisitLeaf E lg cfg C tree leaf x label K ff ft).getD tree.length
          defaultONode).histogram =
        smoothedLogHistogram lg
          ((onlineVisitPrep cfg C tree leaf x label K ff ft).leftChildStatistics.getD
            (slotIndex cfg.numThresholds
              (onlineScan E (onlineVisitPrep cfg C tree leaf x label K ff ft).nodeStatistics
                (onlineVisitPrep cfg C tree leaf x label K ff ft).leftChildStatistics
                (onlineVisitPrep cfg C tree leaf x label K ff ft).rightChildStatistics
                cfg.numFeatures cfg.numThresholds cfg.minChildSplitExamples).2.2.toNat
              (onlineScan E (onlineVisitPrep cfg C tree leaf x label K ff ft).nodeStatistics
                (onlineVisitPrep cfg C tree leaf x label K ff ft).leftChildStatistics
                (onlineVisitPrep cfg C tree leaf x label K ff ft).rightChildStatistics
                cfg.numFeatures cfg.numThresholds cfg.minChildSplitExamples).2.1.toNat) [])
          cfg.smoothingParameter ∧
      ((onlineVisitLeaf E lg cfg C tree leaf x label K ff ft).getD (tree.length + 1)
          defaultONode).histogram =
        smoothedLogHistogram lg
          ((onlineVisitPrep cfg C tree leaf x label K ff ft).rightChildStatistics.getD
            (slotIndex cfg.numThresholds
              (onlineScan E (onlineVisitPrep cfg C tree leaf x label K ff ft).nodeStatistics
                (onlineVisitPrep cfg C tree leaf x label K ff ft).leftChildStatistics
                (onlineVisitPrep cfg C tree leaf x label K ff ft).rightChildStatistics
                cfg.numFeatures cfg.numThresholds cfg.minChildSplitExamples).2.2.toNat
              (onlineScan E (onlineVisitPrep cfg C tree leaf x label K ff ft).nodeStatistics
                (onlineVisitPrep cfg C tree leaf x label K ff ft).leftChildStatistics
                (onlineVisitPrep cfg C tree leaf x label K ff ft).rightChildStatistics
                cfg.numFeatures cfg.numThresholds cfg.minChildSplitExamples).2.1.toNat) [])
          cfg.smoothingParameter) := by
  constructor
  · intro h1
    rw [onlineVisitLeaf]
    dsimp only
    by_cases h0 : onlineStopCheck cfg (onlineVisitPrep cfg C tree leaf x label K ff ft)
    · rw [if_pos h0, getD_set_self_of_lt _ _ _ _ hleaf]
      rfl
    · rcases h1 with h1 | h1
      · exact absurd h1 h0
      · rw [if_neg h0, if_pos h1, getD_set_self_of_lt _ _ _ _ hleaf]
        rfl
  · intro h0 h1
    rw [onlineVisitLeaf]
    dsimp only
    rw [if_neg h0, if_neg (not_lt.mpr h1)]
    refine ⟨?_, ?_, ?_⟩
    · rw [getD_append_left_of_lt _ _ _ _ (by simpa using hleaf),
        getD_set_self_of_lt _ _ _ _ hleaf]
    · rw [(getD_set_append_children tree leaf _ _ _ defaultONode).1]
      rfl
    · rw [(getD_set_append_children tree leaf _ _ _ defaultONode).2]
      rfl

/-- Witness for `online_leaf_histograms_always_smoothed`: the committed split
on `treeC3` under `cfgC3b` seeds the left child's histogram smoothed from
the winning slot. -/
theorem online_leaf_histograms_always_smoothed_witness :
    ((onlineVisitLeaf pureGaugeEntropy id cfgC3b 2 treeC3 0 [5] 1 1 [] []).getD
        treeC3.length defaultONode).histogram =
      smoothedLogHistogram id
        ((onlineVisitPrep cfgC3b 2 treeC3 0 [5] 1 1 [] []).leftChildStatistics.getD
          (slotIndex cfgC3b.numThresholds
            (onlineScan pureGaugeEntropy
              (onlineVisitPrep cfgC3b 2 treeC3 0 [5] 1 1 [] []).nodeStatistics
              (onlineVisitPrep cfgC3b 2 treeC3 0 [5] 1 1 [] []).leftChildStatistics
              (onlineVisitPrep cfgC3b 2 treeC3 0 [5] 1 1 [] []).rightChildStatistics
              cfgC3b.numFeatures cfgC3b.numThresholds cfgC3b.minChildSplitExamples).2.2.toNat
            (onlineScan pureGaugeEntropy
              (onlineVisitPrep cfgC3b 2 treeC3 0 [5] 1 1 [] []).nodeStatistics
              (onlineVisitPrep cfgC3b 2 treeC3 0 [5] 1 1 [] []).leftChildStatistics
              (onlineVisitPrep cfgC3b 2 treeC3 0 [5] 1 1 [] []).rightChildStatistics
              cfgC3b.numFeatures cfgC3b.numThresholds cfgC3b.minChildSplitExamples).2.1.toNat)
          [])
        cfgC3b.smoothingParameter := by
  have hscan : (onlineScan pureGaugeEntropy
      (onlineVisitPrep cfgC3b 2 treeC3 0 [5] 1 1 [] []).nodeStatistics
      (onlineVisitPrep cfgC3b 2 treeC3 0 [5] 1 1 [] []).leftChildStatistics
      (onlineVisitPrep cfgC3b 2 treeC3 0 [5] 1 1 [] []).rightChildStatistics
      cfgC3b.numFeatures cfgC3b.numThresholds cfgC3b.minChildSplitExamples).1 = 1 := by
    with_unfolding_all rfl
  refine ((online_leaf_histograms_always_smoothed pureGaugeEntropy id cfgC3b 2 treeC3 0
    [5] 1 1 [] [] (by decide)).2 ?_ ?_).2.1
  · with_unfolding_all decide
  · rw [hscan]
    norm_num [cfgC3b]

theorem onlineScanStep_fst_le (E : List ℕ → ℚ) (ns : List ℕ) (lcs rcs : List (List ℕ))
    (numT minChild : ℕ) (best : ℚ × ℤ × ℤ) (ft : ℕ × ℕ) :
    best.1 ≤ (onlineScanStep E ns lcs rcs numT minChild best ft).1 := by
  rw [onlineScanStep]
  split
  · dsimp only
    split
    · exact le_of_lt (by assumption)
    · exact le_refl _
  · exact le_refl _

theorem onlineScanFold_fst_le (E : List ℕ → ℚ) (ns : List ℕ) (lcs rcs : List (List ℕ))
    (numT minChild : ℕ) :
    ∀ (l : List (ℕ × ℕ)) (best : ℚ × ℤ × ℤ),
      best.1 ≤ (l.foldl (onlineScanStep E ns lcs rcs numT minChild) best).1 := by
  intro l
  induction l with
  | nil => intro best; exact le_refl _
  | cons a l ih =>
    intro best
    rw [List.foldl_cons]
    exact le_trans (onlineScanStep_fst_le E ns lcs rcs numT minChild best a) (ih _)

theorem onlineScanFold_ge_gain (E : List ℕ → ℚ) (ns : List ℕ) (lcs rcs : List (List ℕ))
    (numT minChild : ℕ) :
    ∀ (l : List (ℕ × ℕ)) (best : ℚ × ℤ × ℤ) (ft : ℕ × ℕ), ft ∈ l →
      slotEligible lcs rcs numT minChild ft.1 ft.2 →
      slotGain E ns lcs rcs numT ft.1 ft.2 ≤
        (l.foldl (onlineScanStep E ns lcs rcs numT minChild) best).1 := by
  intro l
  induction l with
  | nil => intro best ft h _; exact absurd h (List.not_mem_nil _)
  | cons a l ih =>
    intro best ft hft hel
    rw [List.foldl_cons]
    rcases List.mem_cons.mp hft with rfl | hft
    · refine le_trans ?_ (onlineScanFold_fst_le E ns lcs rcs numT minChild l _)
      rw [onlineScanStep, if_pos hel]
      dsimp only
      split
      · exact le_refl _
      · exact le_of_not_lt (by assumption)
    · exact ih _ ft hft hel

theorem onlineScanFold_best_slot (E : List ℕ → ℚ) (ns : List ℕ) (lcs rcs : List (List ℕ))
    (numT minChild : ℕ) (pairs : List (ℕ × ℕ)) :
    ∀ (l : List (ℕ × ℕ)), (∀ ft ∈ l, ft ∈ pairs) → ∀ (best : ℚ × ℤ × ℤ),
      (best = (0, -1, -1) ∨ ∃ ft ∈ pairs, slotEligible lcs rcs numT minChild ft.1 ft.2 ∧
        best = (slotGain E ns lcs rcs numT ft.1 ft.2, (ft.2 : ℤ), (ft.1 : ℤ))) →
      (l.foldl (onlineScanStep E ns lcs rcs numT minChild) best = (0, -1, -1) ∨
        ∃ ft ∈ pairs, slotEligible lcs rcs numT minChild ft.1 ft.2 ∧
          l.foldl (onlineScanStep E ns lcs rcs numT minChild) best =
            (slotGain E ns lcs rcs numT ft.1 ft.2, (ft.2 : ℤ), (ft.1 : ℤ))) := by
  intro l
  induction l with
  | nil => intro _ best h; exact h
  | cons a l ih =>
    intro hsub best h
    rw [List.foldl_cons]
    refine ih (fun ft hft => hsub ft (List.mem_cons_of_mem _ hft)) _ ?_
    rw [onlineScanStep]
    split
    · dsimp only
      split
      · exact Or.inr ⟨a, hsub a (List.mem_cons_self _ _), by assumption, rfl⟩
      · exact h
    · exact h

theorem mem_scanPairs (numF numT : ℕ) (ft : ℕ × ℕ) :
    ft ∈ scanPairs numF numT ↔ ft.1 < numF ∧ ft.2 < numT := by
  rcases ft with ⟨f, t⟩
  rw [scanPairs]
  simp only [List.mem_flatMap, List.mem_map, List.mem_range, Prod.mk.injEq]
  constructor
  · rintro ⟨a, ha, b, hb, rfl, rfl⟩
    exact ⟨ha, hb⟩
  · rintro ⟨hf, ht⟩
    exact ⟨f, hf, t, ht, rfl, rfl⟩

theorem onlineVisitPrep_split (cfg : OnlineConfig) (C : ℕ) (tree : List ONode)
    (leaf : ℕ) (x : List ℚ) (label : ℕ) (K : ℕ) (ff : List ℕ) (ft : List (List ℚ)) :
    (onlineVisitPrep cfg C tree leaf x label K ff ft).split =
      (tree.getD leaf defaultONode).split := by
  rw [onlineVisitPrep]
  dsimp only
  split <;> rfl

theorem getD_set_ne_of {α : Type} (l : List α) (i j : ℕ) (a d : α) (h : i ≠ j) :
    (l.set i a).getD j d = l.getD j d := by
  by_cases hj : j < l.length
  · rw [List.getD_eq_getElem _ _ (by simpa using hj), List.getElem_set_ne h,
      List.getD_eq_getElem _ _ hj]
  · rw [List.getD_eq_default _ _ (by simp; omega), List.getD_eq_default _ _ (by omega)]

/-- **C3** (counterexample).  The claim says the online learner commits a
split *iff* the best gain strictly exceeds `minSplitObjective`.  On `treeC3`
(under the entropy gauge `pureGaugeEntropy`) the visit's best gain is
exactly `1 = cfgC3.minSplitObjective`, which does not exceed the minimum —
yet the source's test is `if (bestObjective < minSplitObjective) continue`,
so the split is committed and the tree grows by two nodes. -/
theorem online_commit_at_equal_gain :
    (onlineScan pureGaugeEntropy
      (onlineVisitPrep cfgC3 2 treeC3 0 [5] 1 1 [] []).nodeStatistics
      (onlineVisitPrep cfgC3 2 treeC3 0 [5] 1 1 [] []).leftChildStatistics
      (onlineVisitPrep cfgC3 2 treeC3 0 [5] 1 1 [] []).rightChildStatistics
      cfgC3.numFeatures cfgC3.numThresholds cfgC3.minChildSplitExamples).1 =
      cfgC3.minSplitObjective ∧
    (onlineVisitLeaf pureGaugeEntropy id cfgC3 2 treeC3 0 [5] 1 1 [] []).length =
      treeC3.length + 2 := by
  exact ⟨by with_unfolding_all rfl, by with_unfolding_all rfl⟩

/-- **C3** (amended).  On a visit whose leaf passes the stop re-check, and
with a positive configured `minSplitObjective`: the scan considers exactly
the eligible `(feature, threshold)` slots (both candidate-child masses
strictly above `minChildSplitExamples`) and its result bounds every eligible
slot's gain `parentEntropy − leftEntropy − rightEntropy` from above; the
visit commits a split — the tree grows by exactly the two children — *iff*
the best gain is **at least** (not strictly above) `minSplitObjective`;
otherwise the visit leaves the tree structure unchanged; and on commit the
best value is realized by an eligible slot whose indices the commit uses. -/
theorem online_commit_iff_min_gain_reached (E : List ℕ → ℚ) (lg : ℚ → ℚ)
    (cfg : OnlineConfig) (C : ℕ) (tree : List ONode) (leaf : ℕ) (x : List ℚ)
    (label K : ℕ) (ff : List ℕ) (ft : List (List ℚ))
    (hstop : ¬ onlineStopCheck cfg (onlineVisitPrep cfg C tree leaf x label K ff ft))
    (hmin : 0 < cfg.minSplitObjective) :
    (∀ f t, f < cfg.numFeatures → t < cfg.numThresholds →
      slotEligible (onlineVisitPrep cfg C tree leaf x label K ff ft).leftChildStatistics
        (onlineVisitPrep cfg C tree leaf x label K ff ft).rightChildStatistics
        cfg.numThresholds cfg.minChildSplitExamples f t →
      slotGain E (onlineVisitPrep cfg C tree leaf x label K ff ft).nodeStatistics
        (onlineVisitPrep cfg C tree leaf x label K ff ft).leftChildStatistics
        (onlineVisitPrep cfg C tree leaf x label K ff ft).rightChildStatistics
        cfg.numThresholds f t ≤
      (onlineScan E (onlineVisitPrep cfg C tree leaf x label K ff ft).nodeStatistics
        (onlineVisitPrep cfg C tree leaf x label K ff ft).leftChildStatistics
        (onlineVisitPrep cfg C tree leaf x label K ff ft).rightChildStatistics
        cfg.numFeatures cfg.numThresholds cfg.minChildSplitExamples).1) ∧
    ((onlineVisitLeaf E lg cfg C tree leaf x label K ff ft).length = tree.length + 2 ↔
      cfg.minSplitObjective ≤
      (onlineScan E (onlineVisitPrep cfg C tree leaf x label K ff ft).nodeStatistics
        (onlineVisitPrep cfg C tree leaf x label K ff ft).leftChildStatistics
        (onlineVisitPrep cfg C tree leaf x label K ff ft).rightChildStatistics
        cfg.numFeatures cfg.numThresholds cfg.minChildSplitExamples).1) ∧
    ((onlineScan E (onlineVisitPrep cfg C tree leaf x label K ff ft).nodeStatistics
        (onlineVisitPrep cfg C tree leaf x label K ff ft).leftChildStatistics
        (onlineVisitPrep cfg C tree leaf x label K ff ft).rightChildStatistics
        cfg.numFeatures cfg.numThresholds cfg.minChildSplitExamples).1 <
        cfg.minSplitObjective →
      (onlineVisitLeaf E lg cfg C tree leaf x label K ff ft).length = tree.length ∧
      ∀ i, ((onlineVisitLeaf E lg cfg C tree leaf x label K ff ft).getD i
          defaultONode).split = (tree.getD i defaultONode).split) ∧
    (cfg.minSplitObjective ≤
      (onlineScan E (onlineVisitPrep cfg C tree leaf x label K ff ft).nodeStatistics
        (onlineVisitPrep cfg C tree leaf x label K ff ft).leftChildStatistics
        (onlineVisitPrep cfg C tree leaf x label K ff ft).rightChildStatistics
        cfg.numFeatures cfg.numThresholds cfg.minChildSplitExamples).1 →
      ∃ f t, f < cfg.numFeatures ∧ t < cfg.numThresholds ∧
        slotEligible (onlineVisitPrep cfg C tree leaf x label K ff ft).leftChildStatistics
          (onlineVisitPrep cfg C tree leaf x label K ff ft).rightChildStatistics
          cfg.numThresholds cfg.minChildSplitExamples f t ∧
        slotGain E (onlineVisitPrep cfg C tree leaf x label K ff ft).nodeStatistics
          (onlineVisitPrep cfg C tree leaf x label K ff ft).leftChildStatistics
          (onlineVisitPrep cfg C tree leaf x label K ff ft).rightChildStatistics
          cfg.numThresholds f t =
        (onlineScan E (onlineVisitPrep cfg C tree leaf x label K ff ft).nodeStatistics
          (onlineVisitPrep cfg C tree leaf x label K ff ft).leftChildStatistics
          (onlineVisitPrep cfg C tree leaf x label K ff ft).rightChildStatistics
          cfg.numFeatures cfg.numThresholds cfg.minChildSplitExamples).1 ∧
        (onlineScan E (onlineVisitPrep cfg C tree leaf x label K ff ft).nodeStatistics
          (onlineVisitPrep cfg C tree leaf x label K ff ft).leftChildStatistics
          (onlineVisitPrep cfg C tree leaf x label K ff ft).rightChildStatistics
          cfg.numFeatures cfg.numThresholds cfg.minChildSplitExamples).2 =
          ((t : ℤ), (f : ℤ))) := by
  refine ⟨?_, ?_, ?_, ?_⟩
  · intro f t hf ht hel
    exact onlineScanFold_ge_gain E _ _ _ _ _ (scanPairs cfg.numFeatures cfg.numThresholds)
      (0, -1, -1) (f, t) ((mem_scanPairs _ _ _).mpr ⟨hf, ht⟩) hel
  · by_cases hb : (onlineScan E (onlineVisitPrep cfg C tree leaf x label K ff ft).nodeStatistics
        (onlineVisitPrep cfg C tree leaf x label K ff ft).leftChildStatistics
        (onlineVisitPrep cfg C tree leaf x label K ff ft).rightChildStatistics
        cfg.numFeatures cfg.numThresholds cfg.minChildSplitExamples).1 <
        cfg.minSplitObjective
    · rw [onlineVisitLeaf]
      dsimp only
      rw [if_neg hstop, if_pos hb, List.length_set]
      constructor
      · intro h
        omega
      · intro h
        exact absurd hb (not_lt.mpr h)
    · rw [onlineVisitLeaf]
      dsimp only
      rw [if_neg hstop, if_neg hb]
      simp only [List.length_append, List.length_set, List.length_cons, List.length_nil]
      constructor
      · intro _
        exact le_of_not_lt hb
      · intro _
        trivial
  · intro hb
    constructor
    · rw [onlineVisitLeaf]
      dsimp only
      rw [if_neg hstop, if_pos hb, List.length_set]
    · intro i
      rw [onlineVisitLeaf]
      dsimp only
      rw [if_neg hstop, if_pos hb]
      by_cases hij : leaf = i
      · subst hij
        by_cases hl : leaf < tree.length
        · rw [getD_set_self_of_lt _ _ _ _ hl]
          exact onlineVisitPrep_split cfg C tree leaf x label K ff ft
        · rw [List.set_eq_of_length_le (by omega)]
      · rw [getD_set_ne_of _ _ _ _ _ hij]
  · intro hb
    have h := onlineScanFold_best_slot E
      (onlineVisitPrep cfg C tree leaf x label K ff ft).nodeStatistics
      (onlineVisitPrep cfg C tree leaf x label K ff ft).leftChildStatistics
      (onlineVisitPrep cfg C tree leaf x label K ff ft).rightChildStatistics
      cfg.numThresholds cfg.minChildSplitExamples
      (scanPairs cfg.numFeatures cfg.numThresholds)
      (scanPairs cfg.numFeatures cfg.numThresholds) (fun u hu => hu)
      (0, -1, -1) (Or.inl rfl)
    rw [onlineScan] at hb
    rcases h with h | ⟨⟨f, t⟩, hmem, hel, heq⟩
    · rw [h] at hb
      exact absurd hb (by simpa using not_le.mpr hmin)
    · rcases (mem_scanPairs _ _ _).mp hmem with ⟨hf, ht⟩
      refine ⟨f, t, hf, ht, hel, ?_, ?_⟩
      · rw [onlineScan, heq]
      · rw [onlineScan, heq]

/-- Witness for `online_commit_iff_min_gain_reached`: under `cfgC3b`
(`minSplitObjective = 1/2`) the visit on `treeC3` has best gain `1 ≥ 1/2`,
so it commits and the tree grows by two nodes. -/
theorem online_commit_iff_min_gain_reached_witness :
    (onlineVisitLeaf pureGaugeEntropy id cfgC3b 2 treeC3 0 [5] 1 1 [] []).length =
      treeC3.length + 2 := by
  have hscan : (onlineScan pureGaugeEntropy
      (onlineVisitPrep cfgC3b 2 treeC3 0 [5] 1 1 [] []).nodeStatistics
      (onlineVisitPrep cfgC3b 2 treeC3 0 [5] 1 1 [] []).leftChildStatistics
      (onlineVisitPrep cfgC3b 2 treeC3 0 [5] 1 1 [] []).rightChildStatistics
      cfgC3b.numFeatures cfgC3b.numThresholds cfgC3b.minChildSplitExamples).1 = 1 := by
    with_unfolding_all rfl
  have h := (online_commit_iff_min_gain_reached pureGaugeEntropy id cfgC3b 2 treeC3 0 [5]
    1 1 [] [] (by with_unfolding_all decide) (by norm_num [cfgC3b])).2.1
  refine h.mpr ?_
  rw [hscan]
  norm_num [cfgC3b]

theorem sweepGo_pair_ok (E : List ℕ → ℚ) (s : DataStorage) (f : ℕ) (part : List ℕ) :
    ∀ (rem : List ℕ) (lh rh : List ℕ) (lv : ℚ) (lc : ℕ) (best : SweepBest),
      (∀ n ∈ rem, n ∈ part) → lv ∈ part.map (fun n => s.feat n f) →
      (best.bestFeature < 0 ∨ SweepPairOK s part best) →
      ((sweepGo E s f rem lh rh lv lc best).bestFeature < 0 ∨
        SweepPairOK s part (sweepGo E s f rem lh rh lv lc best)) := by
  intro rem
  induction rem with
  | nil =>
    intro lh rh lv lc best _ _ h
    rw [sweepGo]
    exact h
  | cons n ms ih =>
    intro lh rh lv lc best hsub hlv h
    rw [sweepGo]
    dsimp only
    split
    · exact ih _ _ _ _ _ (fun m hm => hsub m (List.mem_cons_of_mem _ hm))
        (List.mem_map.mpr ⟨n, hsub n (List.mem_cons_self _ _), rfl⟩) h
    · refine ih _ _ _ _ _ (fun m hm => hsub m (List.mem_cons_of_mem _ hm))
        (List.mem_map.mpr ⟨n, hsub n (List.mem_cons_self _ _), rfl⟩) ?_
      dsimp only
      split
      · right
        exact ⟨f, lv, s.feat n f, rfl, hlv,
          List.mem_map.mpr ⟨n, hsub n (List.mem_cons_self _ _), rfl⟩,
          Bool.eq_false_iff.mpr (by assumption), rfl⟩
      · exact h

theorem axisSweepFeature_pair_ok (E : List ℕ → ℚ) (s : DataStorage) (f : ℕ)
    (hist : List ℕ) (part cur : List ℕ) (best : SweepBest)
    (hsub : ∀ n ∈ cur, n ∈ part)
    (h : best.bestFeature < 0 ∨ SweepPairOK s part best) :
    ((axisSweepFeature E s f hist cur best).1.bestFeature < 0 ∨
      SweepPairOK s part (axisSweepFeature E s f hist cur best).1) ∧
    (∀ n ∈ (axisSweepFeature E s f hist cur best).2, n ∈ part) := by
  have hmem : ∀ n ∈ List.insertionSort
      (fun a b => s.feat a f ≤ s.feat b f) cur, n ∈ part := by
    intro n hn
    exact hsub n ((List.mem_insertionSort _).mp hn)
  rw [axisSweepFeature]
  split
  · exact ⟨h, fun n hn => hmem n hn⟩
  · rename_i n0 ms hs
    refine ⟨?_, fun n hn => hmem n hn⟩
    refine sweepGo_pair_ok E s f part ms _ _ _ _ _ ?_ ?_ h
    · intro m hm
      exact hmem m (by rw [hs]; exact List.mem_cons_of_mem _ hm)
    · exact List.mem_map.mpr ⟨n0, hmem n0 (by rw [hs]; exact List.mem_cons_self _ _), rfl⟩

theorem axisFeatureLoop_pair_ok (E : List ℕ → ℚ) (s : DataStorage) (hist : List ℕ)
    (part : List ℕ) :
    ∀ (fs : List ℕ) (cur : List ℕ) (best : SweepBest),
      (∀ n ∈ cur, n ∈ part) →
      (best.bestFeature < 0 ∨ SweepPairOK s part best) →
      ((axisFeatureLoop E s hist fs cur best).1.bestFeature < 0 ∨
        SweepPairOK s part (axisFeatureLoop E s hist fs cur best).1) := by
  intro fs
  induction fs with
  | nil =>
    intro cur best hsub h
    rw [axisFeatureLoop]
    exact h
  | cons f fs ih =>
    intro cur best hsub h
    rw [axisFeatureLoop]
    have h1 := axisSweepFeature_pair_ok E s f hist part cur best hsub h
    exact ih _ _ h1.2 h1.1

/-- **C5** (amended).  During the axis-aligned sweep an adjacent pair of
*equal* feature values is always skipped — the relative-epsilon bound
`1e-6 · max |v+1e-6| |v+1e-6|` is strictly positive — except at the single
degenerate value `v = -1e-6`, where the bound collapses to zero.  And every
committed split's stored threshold is the midpoint `(leftValue+rightValue)/2`
of a non-skipped adjacent pair of the node's observed feature values on the
split feature; whenever that pair's two values are distinct, the threshold
lies strictly between them. -/
theorem axis_committed_threshold_midpoint :
    (∀ v : ℚ, v ≠ -1/1000000 → sweepSkip v v = true) ∧
    (∀ (E : List ℕ → ℚ) (s : DataStorage) (minChild numF : ℕ) (perm : List ℕ)
      (hist part : List ℕ) (f : ℕ) (θ : ℚ) (lp rp : List ℕ) (lc rc : ℤ),
      axisChooseNode E s minChild numF perm hist part =
        AxisNodeResult.split f θ lp rp lc rc →
      ∃ lv rv, lv ∈ part.map (fun n => s.feat n f) ∧
        rv ∈ part.map (fun n => s.feat n f) ∧
        sweepSkip lv rv = false ∧ θ = (lv + rv) / 2 ∧
        (lv ≠ rv → min lv rv < θ ∧ θ < max lv rv)) := by
  constructor
  · intro v hv
    have hpos : 0 < |v + 1/1000000| := abs_pos.mpr (fun h => hv (by linarith))
    rw [sweepSkip]
    simp only [decide_eq_true_eq, sub_self, abs_zero, max_self]
    positivity
  · intro E s minChild numF perm hist part f θ lp rp lc rc hres
    have hloop := axisFeatureLoop_pair_ok E s hist part (perm.take numF) part
      (initialBest part.length) (fun n hn => hn) (Or.inl (by norm_num [initialBest]))
    rw [axisChooseNode] at hres
    dsimp only at hres
    split at hres
    · exact absurd hres (by simp)
    · rename_i hguard
      push_neg at hguard
      rcases hloop with hneg | hok
      · exact absurd hneg (by omega)
      · rcases hok with ⟨f', lv, rv, hfeat, hlv, hrv, hskip, hthr⟩
        rw [AxisNodeResult.split.injEq] at hres
        rcases hres with ⟨hf, hθ, -, -, -, -⟩
        have hff : f = f' := by rw [← hf, hfeat, Int.toNat_natCast]
        subst hff
        refine ⟨lv, rv, hlv, hrv, hskip, ?_, ?_⟩
        · rw [← hθ, hthr]
          ring
        · intro hne
          have hθ2 : θ = (lv + rv) / 2 := by rw [← hθ, hthr]; ring
          rcases lt_or_gt_of_ne hne with hlt | hgt
          · rw [min_eq_left hlt.le, max_eq_right hlt.le, hθ2]
            constructor <;> linarith
          · rw [min_eq_right hgt.le, max_eq_left hgt.le, hθ2]
            constructor <;> linarith

/-- Witness for `axis_committed_threshold_midpoint`: the skip test at the
repeated value `5`, and the committed root split of `storageDet` (threshold
`11/2`, the midpoint of the observed adjacent values `1` and `10`). -/
theorem axis_committed_threshold_midpoint_witness :
    sweepSkip 5 5 = true ∧
    (∃ lv rv, lv ∈ [0, 1, 2, 3].map (fun n => storageDet.feat n 0) ∧
      rv ∈ [0, 1, 2, 3].map (fun n => storageDet.feat n 0) ∧
      sweepSkip lv rv = false ∧ (11/2 : ℚ) = (lv + rv) / 2 ∧
      (lv ≠ rv → min lv rv < (11/2 : ℚ) ∧ (11/2 : ℚ) < max lv rv)) := by
  constructor
  · exact axis_committed_threshold_midpoint.1 5 (by norm_num)
  · exact axis_committed_threshold_midpoint.2 pureGaugeEntropy storageDet 1 1 [0, 1]
      [2, 2] [0, 1, 2, 3] 0 (11/2) [1, 0] [3, 2] 0 0 (by with_unfolding_all rfl)

/-- **C5** (counterexample).  The claim says every committed axis-aligned
threshold lies strictly between two observed feature values.  On the node
whose two examples both carry feature value exactly `-1e-6` the pair is not
skipped (the epsilon bound is zero), the split is committed with threshold
`-1e-6`, and every observed feature value of the partition *equals* the
threshold, so the threshold is not strictly between two observed values. -/
theorem axis_threshold_equals_observed_value :
    axisChooseNode pureGaugeEntropy storageTie 1 1 [0] [1, 1] [0, 1] =
      AxisNodeResult.split 0 (-1/1000000) [] [1, 0] 1 (-1) ∧
    ∀ n ∈ [0, 1], storageTie.feat n 0 = -1/1000000 := by
  refine ⟨by with_unfolding_all rfl, ?_⟩
  intro n hn
  rcases List.mem_cons.mp hn with rfl | hn
  · with_unfolding_all rfl
  rcases List.mem_cons.mp hn with rfl | hn
  · with_unfolding_all rfl
  · exact absurd hn (List.not_mem_nil _)
